import Mathlib

/-!
Shallow embedding of the territorial / economic / military simulation core of
`game.py` (provinces, countries, resource ledger, army creation, capital
connectivity, battle resolution, battle manager), together with proofs about
the embedded operations.

Modelling conventions:
* Provinces and countries are identified by natural numbers; mutable Python
  object attributes become finite maps `Nat → _` inside a `World` record.
* Population / GDP / damage quantities are modelled as exact rationals.  The
  Python code mixes machine integers with float literals (`0.5`, `0.7`,
  `0.95`, `0.98`, `0.001`, `0.2`, `1.5`); this development uses the exact
  rational values of those literals.
* Python `int(q)` truncates toward zero; `pyInt` reproduces that exactly.
* Python `list.remove` / the `in` test on lists become `List.erase` /
  membership; the Python `set` used by the BFS becomes a list accumulating
  fresh elements.
-/

namespace Game

/-- Python `int(q)` applied to a rational: truncation toward zero. -/
def pyInt (q : ℚ) : ℤ := if 0 ≤ q then ⌊q⌋ else -⌊-q⌋

/-- Army record (`Army.__init__`, game.py:949-977).  Fields irrelevant to the
claims under study (screen coordinates, movement-animation state, `path`,
`defense_province_target`) are omitted; `Army.__init__` initialises
`target_province = None`, `mission_type = "idle"`, `in_battle = False`. -/
structure Army where
  owner : Nat
  currentProvince : Nat
  strength : ℤ
  targetProvince : Option Nat
  missionType : String
  inBattle : Bool
deriving DecidableEq

/-- The army constructor `Army(owner, province, strength)`. -/
def mkArmy (owner currentProvince : Nat) (strength : ℤ) : Army :=
  { owner := owner
    currentProvince := currentProvince
    strength := strength
    targetProvince := none
    missionType := "idle"
    inBattle := false }

/-- Mutable world state: per-province attributes (`Province.owner`,
`Province.population`, `Province.gdp`, `Province.is_island`,
`Province.is_coastal`, `Province.border_provinces`) and per-country
attributes (`Country.owned_provinces`, `Country.capital_province`,
`Country.armies`).  `provinceUniverse` is the fixed global `provinces`
list created at world generation. -/
structure World where
  owner : Nat → Option Nat
  ownedProvinces : Nat → List Nat
  population : Nat → ℚ
  gdp : Nat → ℚ
  isIsland : Nat → Bool
  isCoastal : Nat → Bool
  borderProvinces : Nat → List Nat
  capitalProvince : Nat → Option Nat
  armies : Nat → List Army
  provinceUniverse : List Nat

/-- ARMY_BASE_STRENGTH (game.py:81). -/
def ARMY_BASE_STRENGTH : ℤ := 2000

/-- GAME_TICKS_PER_LOGICAL_SECOND (game.py:82). -/
def GAME_TICKS_PER_LOGICAL_SECOND : Nat := 30

/-- ARMY_MAX_STRENGTH (game.py:83). -/
def ARMY_MAX_STRENGTH : ℤ := 1000000

/-- GDP_STRENGTH_MULTIPLIER = 0.001 (game.py:84). -/
def GDP_STRENGTH_MULTIPLIER : ℚ := 1 / 1000

/-- POPULATION_COST_PER_STRENGTH = 0.5 (game.py:90). -/
def POPULATION_COST_PER_STRENGTH : ℚ := 1 / 2

/-- GDP_COST_PER_STRENGTH = 2 (game.py:91). -/
def GDP_COST_PER_STRENGTH : ℚ := 2

/-- `Country.get_total_population` (game.py:419-421). -/
def getTotalPopulation (w : World) (c : Nat) : ℚ :=
  ((w.ownedProvinces c).map w.population).sum

/-- `Country.get_total_gdp` (game.py:423-425). -/
def getTotalGdp (w : World) (c : Nat) : ℚ :=
  ((w.ownedProvinces c).map w.gdp).sum

/-- Python `sorted(l, key=key, reverse=True)`: stable descending sort. -/
def sortDescBy (key : Nat → ℚ) (l : List Nat) : List Nat :=
  l.mergeSort (fun a b => decide (key b ≤ key a))

/-- Value-level greedy depletion shared by `Country.deduct_population` and
`Country.deduct_gdp` (game.py:431-461): walk the (already sorted) values,
subtracting `min(value, remaining)` from each until `remaining ≤ 0` (the
Python loop breaks) or the values are exhausted; return the new values and
the final remainder. -/
def greedyDeduct : List ℚ → ℚ → List ℚ × ℚ
  | [], r => ([], r)
  | v :: vs, r =>
      if r ≤ 0 then (v :: vs, r)
      else
        let d := min v r
        let rest := greedyDeduct vs (r - d)
        ((v - d) :: rest.1, rest.2)

/-- The same greedy depletion, acting on a resource map indexed by the
province ids of the sorted owned-province list (the Python loop mutates
`p.population` resp. `p.gdp` in place). -/
def deductStep : (Nat → ℚ) → List Nat → ℚ → (Nat → ℚ) × ℚ
  | res, [], r => (res, r)
  | res, p :: ps, r =>
      if r ≤ 0 then (res, r)
      else
        let d := min (res p) r
        deductStep (fun q => if q = p then res p - d else res q) ps (r - d)

/-- `Country.deduct_population(amount)` (game.py:431-445): sort the owned
provinces by population, descending; greedily deduct; return the updated
world and whether the full amount was removed (`remaining == 0`). -/
def deductPopulation (w : World) (c : Nat) (amount : ℚ) : World × Bool :=
  let sorted := sortDescBy w.population (w.ownedProvinces c)
  let r := deductStep w.population sorted amount
  ({ w with population := r.1 }, decide (r.2 = 0))

/-- `Country.deduct_gdp(amount)` (game.py:447-461): sort the owned provinces
by gdp, descending; greedily deduct; return the updated world and whether
the full amount was removed (`remaining == 0`). -/
def deductGdp (w : World) (c : Nat) (amount : ℚ) : World × Bool :=
  let sorted := sortDescBy w.gdp (w.ownedProvinces c)
  let r := deductStep w.gdp sorted amount
  ({ w with gdp := r.1 }, decide (r.2 = 0))

/-- Inner neighbour scan of the BFS in
`Country.is_province_connected_to_capital` (game.py:392-401): for each
neighbour of the dequeued province that is owned by the country and not yet
visited, the Python code returns `True` early when it is the searched
province (modelled as `none`), otherwise marks it visited and enqueues it. -/
def scanNeighbors (ownedBy : Nat → Bool) (target : Nat) :
    List Nat → List Nat → List Nat → Option (List Nat × List Nat)
  | [], visited, queue => some (visited, queue)
  | b :: bs, visited, queue =>
      if ownedBy b && !(visited.contains b) then
        if b = target then none
        else scanNeighbors ownedBy target bs (visited ++ [b]) (queue ++ [b])
      else scanNeighbors ownedBy target bs visited queue

/-- The `while queue:` loop of the BFS (game.py:392-403).  The Python loop
has no fuel; every enqueued province is fresh (recorded in `visited`), so
the number of dequeues is bounded by the number of provinces, and the
callers pass fuel `provinceUniverse.length + 1`, which is proved sufficient
below. -/
def bfsLoop (adjacency : Nat → List Nat) (ownedBy : Nat → Bool) (target : Nat) :
    Nat → List Nat → List Nat → Bool
  | 0, _, _ => false
  | _ + 1, [], _ => false
  | fuel + 1, current :: rest, visited =>
      match scanNeighbors ownedBy target (adjacency current) visited rest with
      | none => true
      | some (visited2, queue2) => bfsLoop adjacency ownedBy target fuel queue2 visited2

/-- `Country.is_province_connected_to_capital(province)` (game.py:377-403):
`False` when the country has no capital or the province is not owned;
`True` when the province is the capital; otherwise a BFS from the capital
over neighbours owned by the country. -/
def isProvinceConnectedToCapital (w : World) (c : Nat) (p : Nat) : Bool :=
  match w.capitalProvince c with
  | none => false
  | some cap =>
      if !((w.ownedProvinces c).contains p) then false
      else if p = cap then true
      else
        bfsLoop w.borderProvinces (fun q => w.owner q == some c) p
          (w.provinceUniverse.length + 1) [cap] [cap]

/-- `Country.get_isolated_provinces` (game.py:405-417): with no capital,
every owned province; otherwise the owned provinces that are not islands
and not connected to the capital. -/
def getIsolatedProvinces (w : World) (c : Nat) : List Nat :=
  match w.capitalProvince c with
  | none => w.ownedProvinces c
  | some _ =>
      (w.ownedProvinces c).filter
        (fun p => !w.isIsland p && !(isProvinceConnectedToCapital w c p))

/-- `Country.create_army(province, strength)` (game.py:490-526).  Returns the
created army (or `none`) together with the updated world.  Mirrors the
source: connectivity guard; GDP-derived strength when unspecified; coastal
discount `int(strength * 0.7)`; resource sufficiency check; then the
short-circuit `if self.deduct_population(...) and self.deduct_gdp(...)`
(both calls mutate), appending the new army on success. -/
def createArmy (w : World) (c : Nat) (p : Nat) (strengthArg : Option ℤ) :
    Option Army × World :=
  if !w.isIsland p && !(isProvinceConnectedToCapital w c p) then (none, w)
  else
    let strength : ℤ :=
      match strengthArg with
      | some s => s
      | none =>
          min (ARMY_BASE_STRENGTH + pyInt (getTotalGdp w c * GDP_STRENGTH_MULTIPLIER))
            ARMY_MAX_STRENGTH
    let actualStrength : ℤ :=
      if w.isCoastal p then pyInt ((strength : ℚ) * (7 / 10)) else strength
    let requiredPopulation : ℚ := (actualStrength : ℚ) * POPULATION_COST_PER_STRENGTH
    let requiredGdp : ℚ := (actualStrength : ℚ) * GDP_COST_PER_STRENGTH
    if getTotalPopulation w c < requiredPopulation ∨ getTotalGdp w c < requiredGdp then
      (none, w)
    else
      let r1 := deductPopulation w c requiredPopulation
      if r1.2 then
        let r2 := deductGdp r1.1 c requiredGdp
        if r2.2 then
          let newArmy := mkArmy c p actualStrength
          (some newArmy,
            { r2.1 with
              armies := fun c2 =>
                if c2 = c then r2.1.armies c ++ [newArmy] else r2.1.armies c2 })
        else (none, r2.1)
      else (none, r1.1)

/-- `Country.add_province(province, initial_population, initial_gdp)`
(game.py:300-314): set the province owner, append to `owned_provinces`,
and overwrite population / gdp when the optional arguments are given.
(The colour change is not modelled.) -/
def addProvince (w : World) (c p : Nat)
    (initialPopulation initialGdp : Option ℚ) : World :=
  { w with
    owner := fun q => if q = p then some c else w.owner q
    ownedProvinces := fun c2 =>
      if c2 = c then w.ownedProvinces c ++ [p] else w.ownedProvinces c2
    population := fun q =>
      if q = p then
        match initialPopulation with
        | some v => v
        | none => w.population q
      else w.population q
    gdp := fun q =>
      if q = p then
        match initialGdp with
        | some v => v
        | none => w.gdp q
      else w.gdp q }

/-- `Country.relocate_capital` (game.py:352-375): choose a new capital among
the owned provinces other than the current capital, preferring inland
(non-island, non-coastal) ones; with no candidate the capital becomes
`None`.  The `random.choice` selection is passed in as `pick`. -/
def relocateCapital (pick : List Nat → Option Nat) (w : World) (c : Nat) : World :=
  let available :=
    (w.ownedProvinces c).filter (fun p => !(some p == w.capitalProvince c))
  let newCap :=
    if available.isEmpty then none
    else
      let inland := available.filter (fun p => !w.isIsland p && !w.isCoastal p)
      if !inland.isEmpty then pick inland else pick available
  { w with
    capitalProvince := fun c2 => if c2 = c then newCap else w.capitalProvince c2 }

/-- `Country.remove_province(province)` (game.py:334-350): relocate the
capital first when the removed province is the capital; then clear the
owner, erase the province from `owned_provinces` (the Python code removes
it only `if province in self.owned_provinces`, exactly `List.erase`), and
reset its population and gdp to 0.  (The colour reset is not modelled;
`relocate_capital` only mutates `capital_province`.) -/
def removeProvince (pick : List Nat → Option Nat) (w : World) (c p : Nat) : World :=
  let w0 := if w.capitalProvince c == some p then relocateCapital pick w c else w
  { w0 with
    owner := fun q => if q = p then none else w0.owner q
    ownedProvinces := fun c2 =>
      if c2 = c then (w0.ownedProvinces c).erase p else w0.ownedProvinces c2
    population := fun q => if q = p then 0 else w0.population q
    gdp := fun q => if q = p then 0 else w0.gdp q }

/-- Small concrete world used to witness the resource-ledger theorems:
one country (id 0) owning provinces 0 and 1 with populations 6 / 2 and
GDP 5 / 3, capital at province 0. -/
def wLedger : World :=
  { owner := fun p => if p = 0 ∨ p = 1 then some 0 else none
    ownedProvinces := fun c => if c = 0 then [0, 1] else []
    population := fun p => if p = 0 then 6 else if p = 1 then 2 else 0
    gdp := fun p => if p = 0 then 5 else if p = 1 then 3 else 0
    isIsland := fun _ => false
    isCoastal := fun _ => false
    borderProvinces := fun _ => []
    capitalProvince := fun c => if c = 0 then some 0 else none
    armies := fun _ => []
    provinceUniverse := [0, 1] }

/-- The strength actually granted by `create_army` (game.py:499-508): the
argument when given, else the GDP-derived default, then the coastal
discount `int(strength * 0.7)`. -/
def actualStrengthOf (w : World) (c p : Nat) (sArg : Option ℤ) : ℤ :=
  let strength : ℤ :=
    match sArg with
    | some s => s
    | none =>
        min (ARMY_BASE_STRENGTH + pyInt (getTotalGdp w c * GDP_STRENGTH_MULTIPLIER))
          ARMY_MAX_STRENGTH
  if w.isCoastal p then pyInt ((strength : ℚ) * (7 / 10)) else strength

/-- The charging tail of `create_army` (game.py:510-526) as a function of the
already-computed actual strength `A`; `createArmy_eq` below shows
`createArmy` is definitionally this after the connectivity guard. -/
def createArmyCharge (w : World) (c p : Nat) (A : ℤ) : Option Army × World :=
  let requiredPopulation : ℚ := (A : ℚ) * POPULATION_COST_PER_STRENGTH
  let requiredGdp : ℚ := (A : ℚ) * GDP_COST_PER_STRENGTH
  if getTotalPopulation w c < requiredPopulation ∨ getTotalGdp w c < requiredGdp then
    (none, w)
  else
    let r1 := deductPopulation w c requiredPopulation
    if r1.2 then
      let r2 := deductGdp r1.1 c requiredGdp
      if r2.2 then
        let newArmy := mkArmy c p A
        (some newArmy,
          { r2.1 with
            armies := fun c2 =>
              if c2 = c then r2.1.armies c ++ [newArmy] else r2.1.armies c2 })
      else (none, r2.1)
    else (none, r1.1)

/-- Concrete world for the `create_army` scenario: country 0 owns the single
coastal, non-island province 0 (its capital) with population 10,000 and
GDP 1,000,000. -/
def wCreate : World :=
  { owner := fun p => if p = 0 then some 0 else none
    ownedProvinces := fun c => if c = 0 then [0] else []
    population := fun p => if p = 0 then 10000 else 0
    gdp := fun p => if p = 0 then 1000000 else 0
    isIsland := fun _ => false
    isCoastal := fun p => p == 0
    borderProvinces := fun _ => []
    capitalProvince := fun c => if c = 0 then some 0 else none
    armies := fun _ => []
    provinceUniverse := [0] }

/-- Reachability along the edges the BFS of
`is_province_connected_to_capital` expands: from `u`, follow adjacency
edges whose target is owned by the country (`border_province.owner ==
self`).  Starting at the owned capital this is exactly reachability over
edges with both endpoints owned. -/
inductive ReachesOwned (adjacency : Nat → List Nat) (ownedBy : Nat → Bool) :
    Nat → Nat → Prop
  | refl (u : Nat) : ReachesOwned adjacency ownedBy u u
  | tail {u v b : Nat} : ReachesOwned adjacency ownedBy u v →
      b ∈ adjacency v → ownedBy b = true → ReachesOwned adjacency ownedBy u b

/-- Concrete world with an owned island province (id 1) that has no
adjacency to the capital (id 0). -/
def wIsland : World :=
  { owner := fun p => if p = 0 ∨ p = 1 then some 0 else none
    ownedProvinces := fun c => if c = 0 then [0, 1] else []
    population := fun _ => 0
    gdp := fun _ => 0
    isIsland := fun p => p == 1
    isCoastal := fun _ => false
    borderProvinces := fun _ => []
    capitalProvince := fun c => if c = 0 then some 0 else none
    armies := fun _ => []
    provinceUniverse := [0, 1] }

/-- Concrete world with a two-province path: capital 0 adjacent to owned
province 1. -/
def wPath : World :=
  { owner := fun p => if p = 0 ∨ p = 1 then some 0 else none
    ownedProvinces := fun c => if c = 0 then [0, 1] else []
    population := fun _ => 0
    gdp := fun _ => 0
    isIsland := fun _ => false
    isCoastal := fun _ => false
    borderProvinces := fun u => if u = 0 then [1] else if u = 1 then [0] else []
    capitalProvince := fun c => if c = 0 then some 0 else none
    armies := fun _ => []
    provinceUniverse := [0, 1] }

/-- Battle state for `Battle._apply_battle_damage` (game.py:809-835): the
participating army lists, the province intrinsic defense, and the
per-tick damage rate.  The source's other `Battle` fields (random factor,
penalties, duration, province) enter `_apply_battle_damage` only through
the precomputed attack / defense strengths and the damage multiplier,
which are passed as arguments. -/
structure BattleState where
  attackingArmies : List Army
  defendingArmies : List Army
  provinceDefenseStrength : ℚ
  damagePerTick : ℚ

/-- `Battle._damage_army_group(armies, damage_rate)` (game.py:837-847):
every army with positive strength takes `max(1, int(strength * rate))`
damage, clamped at 0.  (The removal of annihilated armies from their
owner's `armies` list mutates Country state outside `BattleState`.) -/
def damageArmyGroup (armies : List Army) (damageRate : ℚ) : List Army :=
  armies.map fun a =>
    if 0 < a.strength then
      { a with strength := max 0 (a.strength - max 1 (pyInt ((a.strength : ℚ) * damageRate))) }
    else a

/-- `Battle._apply_battle_damage(attack_strength, defense_strength,
damage_multiplier)` (game.py:809-835): no-op when combined strength is
≤ 0; otherwise the attacker's share of combined strength picks reduced /
amplified damage rates (0.2 / 1.5 of `damage_per_tick`, times the
multiplier), both army groups take damage, and the province intrinsic
defense decays by its own value times the defender rate — clamped at 0 —
when the attacker's share is at least 0.4. -/
def applyBattleDamage (b : BattleState)
    (attackStrength defenseStrength damageMultiplier : ℚ) : BattleState :=
  let totalStrength := attackStrength + defenseStrength
  if totalStrength ≤ 0 then b
  else
    let strengthShare := attackStrength / totalStrength
    let rates :=
      if 1 / 2 < strengthShare then
        (b.damagePerTick * (1 / 5) * damageMultiplier,
          b.damagePerTick * (3 / 2) * damageMultiplier)
      else
        (b.damagePerTick * (3 / 2) * damageMultiplier,
          b.damagePerTick * (1 / 5) * damageMultiplier)
    let b1 :=
      { b with
        attackingArmies := damageArmyGroup b.attackingArmies rates.1
        defendingArmies := damageArmyGroup b.defendingArmies rates.2 }
    if 2 / 5 ≤ strengthShare then
      { b1 with
        provinceDefenseStrength :=
          max 0 (b1.provinceDefenseStrength
            - b1.provinceDefenseStrength * rates.2) }
    else b1

/-- The isolated-army decay block of the main loop (game.py:1807-1818),
executed for a country once per tick (it sits directly under
`for country in countries:` at frame level, not under the
`time_elapsed % GAME_TICKS_PER_LOGICAL_SECOND == 0` guard): every army of
the country stationed in an isolated province has
`strength = int(strength * 0.95)` applied, and is then removed from the
country's army list when the new strength is ≤ 100.  Since every army
occupies exactly one province, the per-province source loops amount to
this single map-and-filter over the country's army list. -/
def isolationDecayTick (w : World) (c : Nat) : World :=
  let isolated := getIsolatedProvinces w c
  { w with
    armies := fun c2 =>
      if c2 = c then
        (((w.armies c).map fun a =>
          if a.currentProvince ∈ isolated then
            { a with strength := pyInt ((a.strength : ℚ) * (19 / 20)) }
          else a).filter
          fun a => !(isolated.contains a.currentProvince && decide (a.strength ≤ 100)))
      else w.armies c2 }

/-- Iterated isolation decay: `n` simulation ticks of the decay block for
country `c`. -/
def runTicksIsolationDecay (c : Nat) : Nat → World → World
  | 0, w => w
  | n + 1, w => runTicksIsolationDecay c n (isolationDecayTick w c)

/-- Family of concrete worlds for the decay claim: country 0 owns its
capital 0 and the disconnected non-island province 2 (no adjacency), with
a single army of strength `s` stationed at province 2. -/
def wIsolatedA (s : ℤ) : World :=
  { owner := fun p => if p = 0 ∨ p = 2 then some 0 else none
    ownedProvinces := fun c => if c = 0 then [0, 2] else []
    population := fun _ => 0
    gdp := fun _ => 0
    isIsland := fun _ => false
    isCoastal := fun _ => false
    borderProvinces := fun _ => []
    capitalProvince := fun c => if c = 0 then some 0 else none
    armies := fun c => if c = 0 then [mkArmy 0 2 s] else []
    provinceUniverse := [0, 2] }

/-- Python `max(cur :: l, key=lambda a: a.strength)`: scan left to right,
replacing the current maximum only on a strictly greater key, so the
first army with maximal strength wins. -/
def pyMaxByStrength : Army → List Army → Army
  | cur, [] => cur
  | cur, x :: xs => pyMaxByStrength (if cur.strength < x.strength then x else cur) xs

/-- `Battle._end_battle_attacker_victory` (game.py:849-881): clear
`in_battle` on every participant; when attackers survive, the owner of the
strongest surviving attacker wins: the original owner (captured at battle
creation) loses the province via `remove_province`, the winner gains it
via `add_province` with 98% of the pre-conquest population and 70% of the
pre-conquest GDP (both `int()`-truncated), and every attacking army whose
mission is not `"defense"` has its target cleared and mission set to
`"idle"` (`path = []` is movement state not modelled).  Returns the
updated world and the updated attacker / defender army records. -/
def endBattleAttackerVictory (pick : List Nat → Option Nat) (w : World)
    (province : Nat) (originalOwner : Option Nat)
    (attackingArmies defendingArmies : List Army) :
    World × List Army × List Army :=
  let attackers1 := attackingArmies.map fun a => { a with inBattle := false }
  let defenders1 := defendingArmies.map fun a => { a with inBattle := false }
  match attackers1 with
  | [] => (w, attackers1, defenders1)
  | a0 :: rest =>
      let winner := (pyMaxByStrength a0 rest).owner
      let conqueredPopulation := w.population province
      let conqueredGdp := w.gdp province
      let w1 :=
        match originalOwner with
        | some o => removeProvince pick w o province
        | none => w
      let w2 := addProvince w1 winner province
        (some ((pyInt (conqueredPopulation * (49 / 50)) : ℤ) : ℚ))
        (some ((pyInt (conqueredGdp * (7 / 10)) : ℤ) : ℚ))
      let attackers2 := attackers1.map fun a =>
        if a.missionType ≠ "defense" then
          { a with targetProvince := none, missionType := "idle" }
        else a
      (w2, attackers2, defenders1)

/-- Battle record kept by the `BattleManager` for C9: the contested
province, the attacker / defender lists (army identifiers — Python list
membership on `Army` objects is object identity) and the province
intrinsic defense passed at creation.  `Battle.__init__`'s randomized
factor, penalties, duration and initial-strength bookkeeping are combat
state irrelevant to attacker-list membership. -/
structure BattleRec where
  province : Nat
  attackingArmies : List Nat
  defendingArmies : List Nat
  provinceDefenseStrength : ℚ
deriving DecidableEq

/-- The attacker-merge of `BattleManager.start_battle` on an already active
battle (game.py:912-917): append each arriving army not already present. -/
def mergeAttackers (existing newArmies : List Nat) : List Nat :=
  newArmies.foldl (fun acc a => if a ∈ acc then acc else acc ++ [a]) existing

/-- `BattleManager.start_battle(province, attacking, defending, pds)`
(game.py:905-928): the first active battle at the province, if any,
absorbs the arriving attackers (without duplicates) and the list of
battles is otherwise unchanged; with no battle at that province a new one
is appended (its attacker list a copy of the argument).  The armies'
`in_battle := True` flags mutate Army state outside the manager. -/
def startBattle (battles : List BattleRec) (province : Nat)
    (attackingArmies defendingArmies : List Nat)
    (provinceDefenseStrength : ℚ) : List BattleRec :=
  match battles with
  | [] => [⟨province, attackingArmies, defendingArmies, provinceDefenseStrength⟩]
  | b :: bs =>
      if b.province = province then
        { b with attackingArmies := mergeAttackers b.attackingArmies attackingArmies }
          :: bs
      else
        b :: startBattle bs province attackingArmies defendingArmies
          provinceDefenseStrength

/-- `BattleManager.get_battle_at_province(province)` (game.py:942-947). -/
def getBattleAtProvince (battles : List BattleRec) (province : Nat) :
    Option BattleRec :=
  match battles with
  | [] => none
  | b :: bs =>
      if b.province = province then some b else getBattleAtProvince bs province

/-- Start state for the stale-original-owner scenario: country 1 owns
provinces 3 and 4 (capital 4), country 2 owns province 5 (capital 5),
country 0 owns province 6 (capital 6); owner fields and
`owned_provinces` agree everywhere. -/
def wStale0 : World :=
  { owner := fun p =>
      if p = 3 ∨ p = 4 then some 1
      else if p = 5 then some 2
      else if p = 6 then some 0
      else none
    ownedProvinces := fun c =>
      if c = 1 then [3, 4] else if c = 2 then [5] else if c = 0 then [6] else []
    population := fun _ => 0
    gdp := fun _ => 0
    isIsland := fun _ => false
    isCoastal := fun _ => false
    borderProvinces := fun _ => []
    capitalProvince := fun c =>
      if c = 1 then some 4 else if c = 2 then some 5
      else if c = 0 then some 6 else none
    armies := fun _ => []
    provinceUniverse := [3, 4, 5, 6] }

/-- Mid-battle rebellion (game.py:1618/1622): country 1's
`remove_province` neutralises the contested province 3. -/
def wStale1 : World := removeProvince (fun _ => none) wStale0 1 3

/-- Occupation of the now-unowned province 3 by country 2 via
`engage_province` → `add_province` (game.py:1177-1179). -/
def wStale2 : World := addProvince wStale1 2 3 none none

/-- The still-active battle at province 3 then ends in attacker victory for
country 0's army; `_end_battle_attacker_victory` removes by the battle's
`original_province_owner` — country 1, captured at creation (game.py:698)
and stale by now (game.py:866-867). -/
def wStale3 : World :=
  (endBattleAttackerVictory (fun _ => none) wStale2 3 (some 1)
    [mkArmy 0 3 500] []).1

/-! ### Lemmas about the greedy resource depletion -/

theorem nonneg_all_zero_of_sum_nonpos (vs : List ℚ) (h : ∀ v ∈ vs, 0 ≤ v)
    (hs : vs.sum ≤ 0) : ∀ v ∈ vs, v = 0 := by
  induction vs with
  | nil => intro v hv; cases hv
  | cons v vs ih =>
      have hv : 0 ≤ v := h v (List.mem_cons_self v vs)
      have hvs : ∀ u ∈ vs, 0 ≤ u := fun u hu => h u (List.mem_cons_of_mem v hu)
      have hsum : 0 ≤ vs.sum := List.sum_nonneg hvs
      have hs0 : v + vs.sum ≤ 0 := by simpa [List.sum_cons] using hs
      have hv0 : v = 0 := le_antisymm (by linarith) hv
      intro u hu
      rcases List.mem_cons.mp hu with rfl | hu
      · exact hv0
      · exact ih hvs (by linarith) u hu

theorem greedyDeduct_sum (vs : List ℚ) (r : ℚ) :
    (greedyDeduct vs r).1.sum = vs.sum - (r - (greedyDeduct vs r).2) := by
  induction vs generalizing r with
  | nil => simp [greedyDeduct]
  | cons v vs ih =>
      by_cases hr : r ≤ 0
      · simp [greedyDeduct, hr]
      · have := ih (r - min v r)
        simp only [greedyDeduct, if_neg hr, List.sum_cons]
        rw [this]
        ring

theorem greedyDeduct_snd (vs : List ℚ) (r : ℚ) (hr : 0 ≤ r)
    (hvs : ∀ v ∈ vs, 0 ≤ v) : (greedyDeduct vs r).2 = max 0 (r - vs.sum) := by
  induction vs generalizing r with
  | nil => simp [greedyDeduct, max_eq_right hr]
  | cons v vs ih =>
      have hv : 0 ≤ v := hvs v (List.mem_cons_self v vs)
      have hvs2 : ∀ u ∈ vs, 0 ≤ u := fun u hu => hvs u (List.mem_cons_of_mem v hu)
      have hsum : 0 ≤ vs.sum := List.sum_nonneg hvs2
      by_cases hr0 : r ≤ 0
      · have hr00 : r = 0 := le_antisymm hr0 hr
        subst hr00
        simp only [greedyDeduct, if_pos le_rfl, List.sum_cons]
        rw [max_eq_left (by linarith)]
      · have hrec := ih (r - min v r) (by
          have : min v r ≤ r := min_le_right _ _
          linarith)
        simp only [greedyDeduct, if_neg hr0, List.sum_cons]
        rw [hrec hvs2]
        rcases le_total v r with hvr | hvr
        · rw [min_eq_left hvr]
          congr 1
          ring
        · rw [min_eq_right hvr]
          have h1 : r - r - vs.sum ≤ 0 := by linarith
          have h2 : r - (v + vs.sum) ≤ 0 := by linarith
          rw [max_eq_left h1, max_eq_left h2]

theorem greedyDeduct_nonneg (vs : List ℚ) (r : ℚ) (hvs : ∀ v ∈ vs, 0 ≤ v) :
    ∀ u ∈ (greedyDeduct vs r).1, 0 ≤ u := by
  induction vs generalizing r with
  | nil => simp [greedyDeduct]
  | cons v vs ih =>
      have hv : 0 ≤ v := hvs v (List.mem_cons_self v vs)
      have hvs2 : ∀ u ∈ vs, 0 ≤ u := fun u hu => hvs u (List.mem_cons_of_mem v hu)
      by_cases hr0 : r ≤ 0
      · simpa [greedyDeduct, hr0] using hvs
      · intro u hu
        simp only [greedyDeduct, if_neg hr0] at hu
        rcases List.mem_cons.mp hu with rfl | hu
        · have : min v r ≤ v := min_le_left _ _
          linarith
        · exact ih (r - min v r) hvs2 u hu

theorem greedyDeduct_zero_of_insufficient (vs : List ℚ) (r : ℚ)
    (hvs : ∀ v ∈ vs, 0 ≤ v) (hsum : vs.sum ≤ r) :
    ∀ u ∈ (greedyDeduct vs r).1, u = 0 := by
  induction vs generalizing r with
  | nil => simp [greedyDeduct]
  | cons v vs ih =>
      have hv : 0 ≤ v := hvs v (List.mem_cons_self v vs)
      have hvs2 : ∀ u ∈ vs, 0 ≤ u := fun u hu => hvs u (List.mem_cons_of_mem v hu)
      have hsum2 : 0 ≤ vs.sum := List.sum_nonneg hvs2
      have hsc : v + vs.sum ≤ r := by simpa [List.sum_cons] using hsum
      by_cases hr0 : r ≤ 0
      · have hall : ∀ u ∈ v :: vs, u = 0 :=
          nonneg_all_zero_of_sum_nonpos (v :: vs) hvs (le_trans hsum hr0)
        simpa [greedyDeduct, hr0] using hall
      · have hvr : v ≤ r := by linarith
        intro u hu
        simp only [greedyDeduct, if_neg hr0] at hu
        rcases List.mem_cons.mp hu with rfl | hu
        · rw [min_eq_left hvr]; ring
        · exact ih (r - min v r) hvs2 (by rw [min_eq_left hvr]; linarith) u hu

theorem deductStep_not_mem (res : Nat → ℚ) (ids : List Nat) (r : ℚ) (q : Nat)
    (hq : q ∉ ids) : (deductStep res ids r).1 q = res q := by
  induction ids generalizing res r with
  | nil => simp [deductStep]
  | cons p ps ih =>
      have hqp : q ≠ p := fun h => hq (h ▸ List.mem_cons_self p ps)
      have hqs : q ∉ ps := fun h => hq (List.mem_cons_of_mem p h)
      by_cases hr0 : r ≤ 0
      · simp [deductStep, hr0]
      · simp only [deductStep, if_neg hr0]
        rw [ih _ _ hqs]
        simp [hqp]

theorem deductStep_map (res : Nat → ℚ) (ids : List Nat) (r : ℚ)
    (hnd : ids.Nodup) :
    ids.map (deductStep res ids r).1 = (greedyDeduct (ids.map res) r).1
    ∧ (deductStep res ids r).2 = (greedyDeduct (ids.map res) r).2 := by
  induction ids generalizing res r with
  | nil => simp [deductStep, greedyDeduct]
  | cons p ps ih =>
      have hp : p ∉ ps := (List.nodup_cons.mp hnd).1
      have hnd2 : ps.Nodup := (List.nodup_cons.mp hnd).2
      by_cases hr0 : r ≤ 0
      · simp [deductStep, greedyDeduct, hr0]
      · simp only [deductStep, greedyDeduct, if_neg hr0, List.map_cons]
        have hres2 :
            ps.map (fun q => if q = p then res p - min (res p) r else res q)
              = ps.map res := by
          apply List.map_congr_left
          intro q hq
          have : q ≠ p := fun h => hp (h ▸ hq)
          simp [this]
        have := ih (fun q => if q = p then res p - min (res p) r else res q)
          (r - min (res p) r) hnd2
        rw [hres2] at this
        refine ⟨?_, this.2⟩
        rw [this.1, deductStep_not_mem _ _ _ _ hp]
        simp

/-- Combined specification of the sorted greedy depletion as run by
`deduct_population` / `deduct_gdp` on a resource map `res` over the
owned-province list: the summed resource drops by exactly
`min amount total`; the remainder is zero exactly when the total sufficed;
no province value goes negative; and an insufficient total zeroes every
owned province. -/
theorem deductStep_sorted_spec (res : Nat → ℚ) (owned : List Nat) (amount : ℚ)
    (hnd : owned.Nodup) (hvals : ∀ p ∈ owned, 0 ≤ res p) (hamt : 0 ≤ amount) :
    (owned.map (deductStep res (sortDescBy res owned) amount).1).sum
        = (owned.map res).sum - min amount (owned.map res).sum
    ∧ ((deductStep res (sortDescBy res owned) amount).2 = 0
        ↔ amount ≤ (owned.map res).sum)
    ∧ (∀ p ∈ owned, 0 ≤ (deductStep res (sortDescBy res owned) amount).1 p)
    ∧ ((owned.map res).sum < amount
        → ∀ p ∈ owned, (deductStep res (sortDescBy res owned) amount).1 p = 0) := by
  have hperm : (sortDescBy res owned).Perm owned := List.mergeSort_perm owned _
  have hndS : (sortDescBy res owned).Nodup := hperm.nodup_iff.mpr hnd
  have hvalsS : ∀ v ∈ (sortDescBy res owned).map res, 0 ≤ v := by
    intro v hv
    obtain ⟨p, hp, rfl⟩ := List.mem_map.mp hv
    exact hvals p (hperm.subset hp)
  obtain ⟨hmap, hsnd⟩ := deductStep_map res (sortDescBy res owned) amount hndS
  have hsumres : ((sortDescBy res owned).map res).sum = (owned.map res).sum :=
    (hperm.map res).sum_eq
  have hsndval : (deductStep res (sortDescBy res owned) amount).2
      = max 0 (amount - (owned.map res).sum) := by
    rw [hsnd, greedyDeduct_snd _ _ hamt hvalsS, hsumres]
  have hmemS : ∀ p ∈ owned, p ∈ sortDescBy res owned := fun p hp =>
    hperm.mem_iff.mpr hp
  refine ⟨?_, ?_, ?_, ?_⟩
  · have h1 : (owned.map (deductStep res (sortDescBy res owned) amount).1).sum
        = ((sortDescBy res owned).map
            (deductStep res (sortDescBy res owned) amount).1).sum :=
      ((hperm.map _).sum_eq).symm
    rw [h1, hmap, greedyDeduct_sum, hsumres, ← hsnd, hsndval]
    rcases le_total amount ((owned.map res).sum) with h | h
    · rw [max_eq_left (by linarith), min_eq_left h]; ring
    · rw [max_eq_right (by linarith), min_eq_right h]; ring
  · rw [hsndval]
    constructor
    · intro h
      by_contra hlt
      push_neg at hlt
      have : (0 : ℚ) < max 0 (amount - (owned.map res).sum) :=
        lt_max_of_lt_right (by linarith)
      rw [h] at this
      exact lt_irrefl _ this
    · intro h
      rw [max_eq_left (by linarith)]
  · intro p hp
    have hmem : (deductStep res (sortDescBy res owned) amount).1 p
        ∈ (sortDescBy res owned).map
            (deductStep res (sortDescBy res owned) amount).1 :=
      List.mem_map_of_mem _ (hmemS p hp)
    rw [hmap] at hmem
    exact greedyDeduct_nonneg _ _ hvalsS _ hmem
  · intro hlt p hp
    have hmem : (deductStep res (sortDescBy res owned) amount).1 p
        ∈ (sortDescBy res owned).map
            (deductStep res (sortDescBy res owned) amount).1 :=
      List.mem_map_of_mem _ (hmemS p hp)
    rw [hmap] at hmem
    refine greedyDeduct_zero_of_insufficient _ _ hvalsS ?_ _ hmem
    rw [hsumres]
    linarith

/-- Python `int()` of an integer-valued rational is that integer. -/
theorem pyInt_intCast (n : ℤ) : pyInt (n : ℚ) = n := by
  unfold pyInt
  by_cases h : (0 : ℚ) ≤ (n : ℚ)
  · rw [if_pos h]
    exact Int.floor_intCast n
  · rw [if_neg h]
    have : (-(n : ℚ)) = ((-n : ℤ) : ℚ) := by push_cast; ring
    rw [this, Int.floor_intCast]
    ring

/-- A non-positive amount makes the greedy loop break immediately: the
resource map is untouched and the remainder is the amount itself. -/
theorem deductStep_nonpos (res : Nat → ℚ) (ids : List Nat) (r : ℚ)
    (h : r ≤ 0) : deductStep res ids r = (res, r) := by
  cases ids with
  | nil => rfl
  | cons p ps => simp [deductStep, h]

/-- `deduct_population` succeeds and removes exactly `amount` when the total
suffices. -/
theorem deductPopulation_success (w : World) (c : Nat) (amount : ℚ)
    (hnd : (w.ownedProvinces c).Nodup)
    (hvals : ∀ p ∈ w.ownedProvinces c, 0 ≤ w.population p)
    (hamt : 0 ≤ amount) (hsuff : amount ≤ getTotalPopulation w c) :
    (deductPopulation w c amount).2 = true
    ∧ getTotalPopulation (deductPopulation w c amount).1 c
        = getTotalPopulation w c - amount := by
  obtain ⟨hsum, hiff, _, _⟩ := deductStep_sorted_spec w.population
    (w.ownedProvinces c) amount hnd hvals hamt
  have htot : amount ≤ ((w.ownedProvinces c).map w.population).sum := by
    simpa [getTotalPopulation] using hsuff
  refine ⟨?_, ?_⟩
  · simp only [deductPopulation, decide_eq_true_eq]
    exact hiff.mpr htot
  · simp only [deductPopulation, getTotalPopulation]
    rw [hsum, min_eq_left htot]

/-- `deduct_gdp` succeeds and removes exactly `amount` when the total
suffices. -/
theorem deductGdp_success (w : World) (c : Nat) (amount : ℚ)
    (hnd : (w.ownedProvinces c).Nodup)
    (hvals : ∀ p ∈ w.ownedProvinces c, 0 ≤ w.gdp p)
    (hamt : 0 ≤ amount) (hsuff : amount ≤ getTotalGdp w c) :
    (deductGdp w c amount).2 = true
    ∧ getTotalGdp (deductGdp w c amount).1 c = getTotalGdp w c - amount := by
  obtain ⟨hsum, hiff, _, _⟩ := deductStep_sorted_spec w.gdp
    (w.ownedProvinces c) amount hnd hvals hamt
  have htot : amount ≤ ((w.ownedProvinces c).map w.gdp).sum := by
    simpa [getTotalGdp] using hsuff
  refine ⟨?_, ?_⟩
  · simp only [deductGdp, decide_eq_true_eq]
    exact hiff.mpr htot
  · simp only [deductGdp, getTotalGdp]
    rw [hsum, min_eq_left htot]

/-- A negative amount makes `deduct_population` fail without mutating. -/
theorem deductPopulation_neg (w : World) (c : Nat) (amount : ℚ)
    (hamt : amount < 0) :
    (deductPopulation w c amount).2 = false
    ∧ (deductPopulation w c amount).1.population = w.population := by
  have h := deductStep_nonpos w.population
    (sortDescBy w.population (w.ownedProvinces c)) amount (le_of_lt hamt)
  constructor
  · simp only [deductPopulation, h, decide_eq_false_iff_not]
    exact ne_of_lt hamt
  · simp only [deductPopulation, h]

/-! ### Claim theorems for the resource ledger (C3, C10) -/

/-- C3: for every country whose total GDP is at least `amount`,
`deduct_gdp(amount)` returns `True` and afterwards the sum of gdp over its
owned provinces equals the previous sum minus exactly `amount`; the
provinces are depleted in descending-gdp greedy order (each losing
`min(its gdp, remaining)`), which is the definition of `deductGdp`. -/
theorem deductGdp_sufficient_exact (w : World) (c : Nat) (amount : ℚ)
    (hnd : (w.ownedProvinces c).Nodup)
    (hvals : ∀ p ∈ w.ownedProvinces c, 0 ≤ w.gdp p)
    (hamt : 0 ≤ amount) (hsuff : amount ≤ getTotalGdp w c) :
    (deductGdp w c amount).2 = true
    ∧ getTotalGdp (deductGdp w c amount).1 c = getTotalGdp w c - amount := by
  obtain ⟨hsum, hiff, _, _⟩ := deductStep_sorted_spec w.gdp (w.ownedProvinces c)
    amount hnd hvals hamt
  have htot : amount ≤ ((w.ownedProvinces c).map w.gdp).sum := by
    simpa [getTotalGdp] using hsuff
  constructor
  · simp only [deductGdp, decide_eq_true_eq]
    exact hiff.mpr htot
  · simp only [deductGdp, getTotalGdp]
    rw [hsum, min_eq_left htot]

/-- Witness for `deductGdp_sufficient_exact` at the concrete ledger world
(country 0 owns provinces with gdp 5 and 3; amount 4). -/
theorem deductGdp_sufficient_exact_witness :
    (wLedger.ownedProvinces 0).Nodup
    ∧ (∀ p ∈ wLedger.ownedProvinces 0, 0 ≤ wLedger.gdp p)
    ∧ (0 : ℚ) ≤ 4 ∧ (4 : ℚ) ≤ getTotalGdp wLedger 0
    ∧ ((deductGdp wLedger 0 4).2 = true
        ∧ getTotalGdp (deductGdp wLedger 0 4).1 0 = getTotalGdp wLedger 0 - 4) :=
  ⟨by decide, by decide, by norm_num, by norm_num [getTotalGdp, wLedger],
    deductGdp_sufficient_exact wLedger 0 4 (by decide) (by decide)
      (by norm_num) (by norm_num [getTotalGdp, wLedger])⟩

/-- C10 (implicit): for every country and non-negative amount, both
`deduct_population` and `deduct_gdp` remove exactly
`min(amount, total_before)` from the respective total, return `True`
exactly when the total sufficed (so an insufficient total yields `False`
with every owned province's resource left at exactly 0), and never drive
any owned province's resource below 0. -/
theorem deduct_removes_min_never_negative (w : World) (c : Nat) (amount : ℚ)
    (hnd : (w.ownedProvinces c).Nodup)
    (hpop : ∀ p ∈ w.ownedProvinces c, 0 ≤ w.population p)
    (hgdp : ∀ p ∈ w.ownedProvinces c, 0 ≤ w.gdp p)
    (hamt : 0 ≤ amount) :
    (getTotalPopulation (deductPopulation w c amount).1 c
        = getTotalPopulation w c - min amount (getTotalPopulation w c)
      ∧ ((deductPopulation w c amount).2 = true ↔ amount ≤ getTotalPopulation w c)
      ∧ (getTotalPopulation w c < amount
          → ∀ p ∈ w.ownedProvinces c, (deductPopulation w c amount).1.population p = 0)
      ∧ (∀ p ∈ w.ownedProvinces c, 0 ≤ (deductPopulation w c amount).1.population p))
    ∧ (getTotalGdp (deductGdp w c amount).1 c
        = getTotalGdp w c - min amount (getTotalGdp w c)
      ∧ ((deductGdp w c amount).2 = true ↔ amount ≤ getTotalGdp w c)
      ∧ (getTotalGdp w c < amount
          → ∀ p ∈ w.ownedProvinces c, (deductGdp w c amount).1.gdp p = 0)
      ∧ (∀ p ∈ w.ownedProvinces c, 0 ≤ (deductGdp w c amount).1.gdp p)) := by
  obtain ⟨hsum1, hiff1, hnn1, hz1⟩ := deductStep_sorted_spec w.population
    (w.ownedProvinces c) amount hnd hpop hamt
  obtain ⟨hsum2, hiff2, hnn2, hz2⟩ := deductStep_sorted_spec w.gdp
    (w.ownedProvinces c) amount hnd hgdp hamt
  constructor
  · refine ⟨?_, ?_, ?_, ?_⟩
    · simp only [deductPopulation, getTotalPopulation]
      exact hsum1
    · simp only [deductPopulation, getTotalPopulation, decide_eq_true_eq]
      exact hiff1
    · intro hlt p hp
      simp only [getTotalPopulation] at hlt
      exact hz1 hlt p hp
    · intro p hp
      exact hnn1 p hp
  · refine ⟨?_, ?_, ?_, ?_⟩
    · simp only [deductGdp, getTotalGdp]
      exact hsum2
    · simp only [deductGdp, getTotalGdp, decide_eq_true_eq]
      exact hiff2
    · intro hlt p hp
      simp only [getTotalGdp] at hlt
      exact hz2 hlt p hp
    · intro p hp
      exact hnn2 p hp

/-- Witness for `deduct_removes_min_never_negative` at the concrete ledger
world with an amount (10) exceeding the GDP total (8). -/
theorem deduct_removes_min_never_negative_witness :
    (wLedger.ownedProvinces 0).Nodup
    ∧ (∀ p ∈ wLedger.ownedProvinces 0, 0 ≤ wLedger.population p)
    ∧ (∀ p ∈ wLedger.ownedProvinces 0, 0 ≤ wLedger.gdp p)
    ∧ (0 : ℚ) ≤ 10
    ∧ getTotalGdp (deductGdp wLedger 0 10).1 0
        = getTotalGdp wLedger 0 - min 10 (getTotalGdp wLedger 0) :=
  ⟨by decide, by decide, by decide, by norm_num,
    ((deduct_removes_min_never_negative wLedger 0 10 (by decide) (by decide)
      (by decide) (by norm_num)).2).1⟩

/-! ### Army creation (C2, C8) -/

theorem createArmy_eq (w : World) (c p : Nat) (sArg : Option ℤ) :
    createArmy w c p sArg =
      if !w.isIsland p && !(isProvinceConnectedToCapital w c p) then (none, w)
      else createArmyCharge w c p (actualStrengthOf w c p sArg) := rfl

/-- Behaviour of the charging tail: failure leaves every owned province's
population and gdp unchanged; success yields an army of strength `A` and
drops the totals by exactly the two costs. -/
theorem createArmyCharge_spec (w : World) (c p : Nat) (A : ℤ)
    (hnd : (w.ownedProvinces c).Nodup)
    (hpop : ∀ q ∈ w.ownedProvinces c, 0 ≤ w.population q)
    (hgdp : ∀ q ∈ w.ownedProvinces c, 0 ≤ w.gdp q) :
    ((createArmyCharge w c p A).1 = none →
      ∀ q ∈ w.ownedProvinces c,
        (createArmyCharge w c p A).2.population q = w.population q
        ∧ (createArmyCharge w c p A).2.gdp q = w.gdp q)
    ∧ (∀ a, (createArmyCharge w c p A).1 = some a →
        a.strength = A
        ∧ getTotalPopulation (createArmyCharge w c p A).2 c
            = getTotalPopulation w c - (A : ℚ) * POPULATION_COST_PER_STRENGTH
        ∧ getTotalGdp (createArmyCharge w c p A).2 c
            = getTotalGdp w c - (A : ℚ) * GDP_COST_PER_STRENGTH) := by
  classical
  by_cases hcheck : getTotalPopulation w c < (A : ℚ) * POPULATION_COST_PER_STRENGTH
      ∨ getTotalGdp w c < (A : ℚ) * GDP_COST_PER_STRENGTH
  · constructor
    · intro _ q hq
      simp [createArmyCharge, hcheck]
    · intro a ha
      simp [createArmyCharge, hcheck] at ha
  · have hsp : (A : ℚ) * POPULATION_COST_PER_STRENGTH ≤ getTotalPopulation w c :=
      not_lt.mp (not_or.mp hcheck).1
    have hsg : (A : ℚ) * GDP_COST_PER_STRENGTH ≤ getTotalGdp w c :=
      not_lt.mp (not_or.mp hcheck).2
    by_cases hA : 0 ≤ (A : ℚ) * POPULATION_COST_PER_STRENGTH
    · -- both deductions succeed
      have hAg : 0 ≤ (A : ℚ) * GDP_COST_PER_STRENGTH := by
        have h4 : (A : ℚ) * GDP_COST_PER_STRENGTH
            = 4 * ((A : ℚ) * POPULATION_COST_PER_STRENGTH) := by
          unfold GDP_COST_PER_STRENGTH POPULATION_COST_PER_STRENGTH
          ring
        rw [h4]
        linarith
      obtain ⟨hr1, hr1tot⟩ := deductPopulation_success w c
        ((A : ℚ) * POPULATION_COST_PER_STRENGTH) hnd hpop hA hsp
      have hnd1 : (((deductPopulation w c
          ((A : ℚ) * POPULATION_COST_PER_STRENGTH)).1).ownedProvinces c).Nodup := hnd
      have hgdp1 : ∀ q ∈ ((deductPopulation w c
          ((A : ℚ) * POPULATION_COST_PER_STRENGTH)).1).ownedProvinces c,
          0 ≤ ((deductPopulation w c
            ((A : ℚ) * POPULATION_COST_PER_STRENGTH)).1).gdp q := hgdp
      have hsg1 : (A : ℚ) * GDP_COST_PER_STRENGTH
          ≤ getTotalGdp (deductPopulation w c
              ((A : ℚ) * POPULATION_COST_PER_STRENGTH)).1 c := hsg
      obtain ⟨hr2, hr2tot⟩ := deductGdp_success _ c
        ((A : ℚ) * GDP_COST_PER_STRENGTH) hnd1 hgdp1 hAg hsg1
      constructor
      · intro h
        exfalso
        simp only [createArmyCharge, if_neg hcheck, hr1,
          if_true, hr2] at h
        exact Option.some_ne_none _ h
      · intro a ha
        simp only [createArmyCharge, if_neg hcheck, hr1,
          if_true, hr2] at ha ⊢
        have haeq : a = mkArmy c p A := by
          exact (Option.some_inj.mp ha).symm
        subst haeq
        refine ⟨rfl, ?_, ?_⟩
        · -- population total: armies update and gdp deduction do not touch it
          have h1 : getTotalPopulation
              ((deductGdp (deductPopulation w c
                ((A : ℚ) * POPULATION_COST_PER_STRENGTH)).1 c
                ((A : ℚ) * GDP_COST_PER_STRENGTH)).1) c
              = getTotalPopulation (deductPopulation w c
                ((A : ℚ) * POPULATION_COST_PER_STRENGTH)).1 c := rfl
          calc getTotalPopulation _ c = _ := h1
            _ = getTotalPopulation w c - (A : ℚ) * POPULATION_COST_PER_STRENGTH :=
              hr1tot
        · have h2 : getTotalGdp (deductPopulation w c
              ((A : ℚ) * POPULATION_COST_PER_STRENGTH)).1 c = getTotalGdp w c := rfl
          calc getTotalGdp _ c
              = getTotalGdp ((deductGdp (deductPopulation w c
                  ((A : ℚ) * POPULATION_COST_PER_STRENGTH)).1 c
                  ((A : ℚ) * GDP_COST_PER_STRENGTH)).1) c := rfl
            _ = getTotalGdp (deductPopulation w c
                  ((A : ℚ) * POPULATION_COST_PER_STRENGTH)).1 c
                - (A : ℚ) * GDP_COST_PER_STRENGTH := hr2tot
            _ = getTotalGdp w c - (A : ℚ) * GDP_COST_PER_STRENGTH := by rw [h2]
    · -- negative required population: the first deduction fails untouched
      push_neg at hA
      obtain ⟨hr1, hr1pop⟩ := deductPopulation_neg w c
        ((A : ℚ) * POPULATION_COST_PER_STRENGTH) hA
      constructor
      · intro _ q hq
        simp only [createArmyCharge, if_neg hcheck, hr1,
          Bool.false_eq_true, if_false]
        exact ⟨congrFun hr1pop q, rfl⟩
      · intro a ha
        simp only [createArmyCharge, if_neg hcheck, hr1,
          Bool.false_eq_true, if_false] at ha
        exact absurd ha (Option.noConfusion)

/-- C2: `Country.create_army` is all-or-nothing: when it returns `None`
(whether from the connectivity precondition or from insufficient
resources) every owned province's population and gdp are unchanged; when
it returns an army, the total population drops by exactly
`actual_strength * 0.5` and the total GDP by exactly
`actual_strength * 2`, where `actual_strength` is the returned army's
(coastal-discounted) strength. -/
theorem createArmy_all_or_nothing (w : World) (c p : Nat) (sArg : Option ℤ)
    (hnd : (w.ownedProvinces c).Nodup)
    (hpop : ∀ q ∈ w.ownedProvinces c, 0 ≤ w.population q)
    (hgdp : ∀ q ∈ w.ownedProvinces c, 0 ≤ w.gdp q) :
    ((createArmy w c p sArg).1 = none →
      ∀ q ∈ w.ownedProvinces c,
        (createArmy w c p sArg).2.population q = w.population q
        ∧ (createArmy w c p sArg).2.gdp q = w.gdp q)
    ∧ (∀ a, (createArmy w c p sArg).1 = some a →
        getTotalPopulation (createArmy w c p sArg).2 c
          = getTotalPopulation w c - (a.strength : ℚ) * POPULATION_COST_PER_STRENGTH
        ∧ getTotalGdp (createArmy w c p sArg).2 c
          = getTotalGdp w c - (a.strength : ℚ) * GDP_COST_PER_STRENGTH) := by
  rw [createArmy_eq]
  by_cases hguard : (!w.isIsland p && !(isProvinceConnectedToCapital w c p)) = true
  · constructor
    · intro _ q hq
      simp [hguard]
    · intro a ha
      simp [hguard] at ha
  · have hguard2 : (!w.isIsland p && !(isProvinceConnectedToCapital w c p)) = false :=
      Bool.eq_false_iff.mpr hguard
    obtain ⟨hnone, hsome⟩ := createArmyCharge_spec w c p
      (actualStrengthOf w c p sArg) hnd hpop hgdp
    simp only [hguard2, Bool.false_eq_true, if_false]
    refine ⟨hnone, ?_⟩
    intro a ha
    obtain ⟨hstr, hp1, hg1⟩ := hsome a ha
    rw [hstr]
    exact ⟨hp1, hg1⟩

/-- Witness for `createArmy_all_or_nothing`: the concrete coastal scenario
world, where the call succeeds. -/
theorem createArmy_all_or_nothing_witness :
    (wCreate.ownedProvinces 0).Nodup
    ∧ (∀ q ∈ wCreate.ownedProvinces 0, 0 ≤ wCreate.population q)
    ∧ (∀ q ∈ wCreate.ownedProvinces 0, 0 ≤ wCreate.gdp q)
    ∧ (((createArmy wCreate 0 0 none).1 = none →
        ∀ q ∈ wCreate.ownedProvinces 0,
          (createArmy wCreate 0 0 none).2.population q = wCreate.population q
          ∧ (createArmy wCreate 0 0 none).2.gdp q = wCreate.gdp q)
      ∧ (∀ a, (createArmy wCreate 0 0 none).1 = some a →
          getTotalPopulation (createArmy wCreate 0 0 none).2 0
            = getTotalPopulation wCreate 0
              - (a.strength : ℚ) * POPULATION_COST_PER_STRENGTH
          ∧ getTotalGdp (createArmy wCreate 0 0 none).2 0
            = getTotalGdp wCreate 0 - (a.strength : ℚ) * GDP_COST_PER_STRENGTH)) :=
  ⟨by decide, by decide, by decide,
    createArmy_all_or_nothing wCreate 0 0 none (by decide) (by decide) (by decide)⟩

/-- C8: scenario instance of `create_army` at the concrete coastal world
(total population 10,000, total GDP 1,000,000, coastal connected capital
province): computed strength `min(2000 + int(1,000,000 * 0.001), 1,000,000)
= 3000`, coastal discount `int(3000 * 0.7) = 2100`, required population
`1050` and GDP `4200`, the call succeeds, and the country's total GDP
drops by exactly 4200. -/
theorem createArmy_coastal_scenario :
    min (ARMY_BASE_STRENGTH + pyInt (getTotalGdp wCreate 0 * GDP_STRENGTH_MULTIPLIER))
        ARMY_MAX_STRENGTH = 3000
    ∧ actualStrengthOf wCreate 0 0 none = 2100
    ∧ (2100 : ℚ) * POPULATION_COST_PER_STRENGTH = 1050
    ∧ (2100 : ℚ) * GDP_COST_PER_STRENGTH = 4200
    ∧ (createArmy wCreate 0 0 none).1 = some (mkArmy 0 0 2100)
    ∧ getTotalGdp (createArmy wCreate 0 0 none).2 0
        = getTotalGdp wCreate 0 - 4200 := by
  have htot : getTotalGdp wCreate 0 = 1000000 := by
    simp [getTotalGdp, wCreate]
  have hpy : pyInt (getTotalGdp wCreate 0 * GDP_STRENGTH_MULTIPLIER) = 1000 := by
    have h1 : getTotalGdp wCreate 0 * GDP_STRENGTH_MULTIPLIER = ((1000 : ℤ) : ℚ) := by
      rw [htot]
      unfold GDP_STRENGTH_MULTIPLIER
      norm_num
    rw [h1, pyInt_intCast]
  have hmin : min (ARMY_BASE_STRENGTH
      + pyInt (getTotalGdp wCreate 0 * GDP_STRENGTH_MULTIPLIER)) ARMY_MAX_STRENGTH
      = 3000 := by
    rw [hpy]
    unfold ARMY_BASE_STRENGTH ARMY_MAX_STRENGTH
    norm_num
  have hstr : actualStrengthOf wCreate 0 0 none = 2100 := by
    unfold actualStrengthOf
    have hco : wCreate.isCoastal 0 = true := by decide
    simp only [hco, if_true, hmin]
    have h2 : ((3000 : ℤ) : ℚ) * (7 / 10) = ((2100 : ℤ) : ℚ) := by norm_num
    rw [h2, pyInt_intCast]
  have hguard : (!wCreate.isIsland 0 && !(isProvinceConnectedToCapital wCreate 0 0))
      = false := by decide
  have hcp : (2100 : ℚ) * POPULATION_COST_PER_STRENGTH = 1050 := by
    unfold POPULATION_COST_PER_STRENGTH; norm_num
  have hcg : (2100 : ℚ) * GDP_COST_PER_STRENGTH = 4200 := by
    unfold GDP_COST_PER_STRENGTH; norm_num
  have hchk : ¬(getTotalPopulation wCreate 0 < (2100 : ℚ) * POPULATION_COST_PER_STRENGTH
      ∨ getTotalGdp wCreate 0 < (2100 : ℚ) * GDP_COST_PER_STRENGTH) := by
    push_neg
    constructor
    · rw [hcp]
      norm_num [getTotalPopulation, wCreate]
    · rw [hcg, htot]
      norm_num
  obtain ⟨hr1, hr1tot⟩ := deductPopulation_success wCreate 0
    ((2100 : ℚ) * POPULATION_COST_PER_STRENGTH) (by decide) (by decide)
    (by rw [hcp]; norm_num) (by rw [hcp]; norm_num [getTotalPopulation, wCreate])
  obtain ⟨hr2, hr2tot⟩ := deductGdp_success
    (deductPopulation wCreate 0 ((2100 : ℚ) * POPULATION_COST_PER_STRENGTH)).1 0
    ((2100 : ℚ) * GDP_COST_PER_STRENGTH) (by decide) (by decide)
    (by rw [hcg]; norm_num)
    (by show (2100 : ℚ) * GDP_COST_PER_STRENGTH ≤ getTotalGdp wCreate 0
        rw [hcg, htot]; norm_num)
  have hred : createArmy wCreate 0 0 none = createArmyCharge wCreate 0 0 2100 := by
    rw [createArmy_eq, hstr]
    simp only [hguard, Bool.false_eq_true, if_false]
  have hcharge1 : (createArmyCharge wCreate 0 0 2100).1 = some (mkArmy 0 0 2100) := by
    simp only [createArmyCharge, Int.cast_ofNat, if_neg hchk, hr1, if_true, hr2]
  have hcharge2 : getTotalGdp (createArmyCharge wCreate 0 0 2100).2 0
      = getTotalGdp wCreate 0 - 4200 := by
    simp only [createArmyCharge, Int.cast_ofNat, if_neg hchk, hr1, if_true, hr2]
    have heq : getTotalGdp
        ((deductGdp (deductPopulation wCreate 0
          ((2100 : ℚ) * POPULATION_COST_PER_STRENGTH)).1 0
          ((2100 : ℚ) * GDP_COST_PER_STRENGTH)).1) 0
        = getTotalGdp wCreate 0 - 4200 := by
      rw [hr2tot]
      have h3 : getTotalGdp (deductPopulation wCreate 0
          ((2100 : ℚ) * POPULATION_COST_PER_STRENGTH)).1 0 = getTotalGdp wCreate 0 :=
        rfl
      rw [h3, hcg]
    exact heq
  exact ⟨hmin, hstr, hcp, hcg, by rw [hred]; exact hcharge1, by rw [hred]; exact hcharge2⟩

/-! ### Ownership invariant (C1) -/

theorem removeProvince_owner (pick : List Nat → Option Nat) (w : World) (c p : Nat) :
    (removeProvince pick w c p).owner = fun q => if q = p then none else w.owner q := by
  unfold removeProvince
  by_cases hb : (w.capitalProvince c == some p) = true
  · simp only [hb, if_true]
    rfl
  · simp only [Bool.not_eq_true] at hb
    simp only [hb, Bool.false_eq_true, if_false]

theorem removeProvince_owned (pick : List Nat → Option Nat) (w : World) (c p : Nat) :
    (removeProvince pick w c p).ownedProvinces
      = fun c2 => if c2 = c then (w.ownedProvinces c).erase p
          else w.ownedProvinces c2 := by
  unfold removeProvince
  by_cases hb : (w.capitalProvince c == some p) = true
  · simp only [hb, if_true]
    rfl
  · simp only [Bool.not_eq_true] at hb
    simp only [hb, Bool.false_eq_true, if_false]

/-- C1 (code bug): the ownership invariant `p.owner == c ⇔
p ∈ c.owned_provinces` is broken by a code-reachable sequence, because
`_end_battle_attacker_victory` removes the province from the battle's
`original_province_owner` captured at creation (game.py:698, 866-867)
rather than from the current owner.  From the coherent world `wStale0`
(country 1 owns the contested province 3): a mid-battle rebellion
(`remove_province`, game.py:1618/1622) neutralises province 3; country 2
occupies it (`add_province` on an unowned province, game.py:1177-1179);
the battle then resolves in favour of country 0's army, and the stale
removal by country 1 never takes province 3 out of country 2's
`owned_provinces` while `add_province` hands its owner field to
country 0.  At the following tick boundary province 3 is owned by
country 0 yet still a member of country 2's `owned_provinces`, so the
invariant fails at c = 2, p = 3. -/
theorem staleOriginalOwner_breaks_ownership :
    (wStale0.owner 3 = some 1 ∧ 3 ∈ wStale0.ownedProvinces 1
      ∧ ¬(3 ∈ wStale0.ownedProvinces 2))
    ∧ wStale3.owner 3 = some 0
    ∧ 3 ∈ wStale3.ownedProvinces 2
    ∧ ¬(wStale3.owner 3 = some 2 ↔ 3 ∈ wStale3.ownedProvinces 2) := by
  refine ⟨⟨by decide, by decide, by decide⟩, by decide, by decide, ?_⟩
  intro h
  have h1 : wStale3.owner 3 = some 0 := by decide
  have h2 : (3 : Nat) ∈ wStale3.ownedProvinces 2 := by decide
  have h3 := h.mpr h2
  rw [h1] at h3
  exact Option.noConfusion h3 (fun h0 => Nat.noConfusion h0)

/-! ### BFS correctness (C4) -/

theorem reachesOwned_mem_closed {adjacency : Nat → List Nat}
    {ownedBy : Nat → Bool} {cap x : Nat}
    (h : ReachesOwned adjacency ownedBy cap x) (visited : List Nat)
    (hcap : cap ∈ visited)
    (hcl : ∀ v ∈ visited, ∀ b ∈ adjacency v, ownedBy b = true → b ∈ visited) :
    x ∈ visited := by
  induction h with
  | refl => exact hcap
  | tail hr hb hbo ih => exact hcl _ ih _ hb hbo

theorem contains_eq_false_iff (l : List Nat) (a : Nat) :
    l.contains a = false ↔ a ∉ l := by
  constructor
  · intro h hm
    have := List.elem_iff.mpr hm
    rw [List.contains] at h
    rw [this] at h
    exact Bool.noConfusion h
  · intro h
    rw [List.contains]
    by_cases he : List.elem a l = true
    · exact absurd (List.elem_iff.mp he) h
    · exact Bool.eq_false_iff.mpr he

/-- When the neighbour scan returns without finding the target, the target
is found among the neighbours exactly never: assuming the target is not
yet visited, `none` (early `return True`) is returned iff the target is an
owned neighbour. -/
theorem scanNeighbors_none_iff (ownedBy : Nat → Bool) (t : Nat) :
    ∀ (nbrs visited queue : List Nat), t ∉ visited →
      (scanNeighbors ownedBy t nbrs visited queue = none
        ↔ (t ∈ nbrs ∧ ownedBy t = true)) := by
  intro nbrs
  induction nbrs with
  | nil =>
      intro visited queue _
      simp [scanNeighbors]
  | cons b bs ih =>
      intro visited queue hnt
      by_cases hg : (ownedBy b && !(visited.contains b)) = true
      · by_cases hbt : b = t
        · subst hbt
          simp only [scanNeighbors, hg, if_true, if_pos rfl]
          have hbo : ownedBy b = true ∧ visited.contains b = false := by
            simpa using hg
          constructor
          · intro _
            exact ⟨List.mem_cons_self b bs, hbo.1⟩
          · intro _
            trivial
        · simp only [scanNeighbors, hg, if_true, if_neg hbt]
          have hnt2 : t ∉ visited ++ [b] := by
            intro hmem
            rcases List.mem_append.mp hmem with h | h
            · exact hnt h
            · exact hbt (List.mem_singleton.mp h).symm
          rw [ih (visited ++ [b]) (queue ++ [b]) hnt2]
          constructor
          · intro ⟨h1, h2⟩
            exact ⟨List.mem_cons_of_mem b h1, h2⟩
          · intro ⟨h1, h2⟩
            rcases List.mem_cons.mp h1 with h | h
            · exact absurd h.symm hbt
            · exact ⟨h, h2⟩
      · simp only [scanNeighbors, hg, Bool.false_eq_true, if_false]
        rw [ih visited queue hnt]
        constructor
        · intro ⟨h1, h2⟩
          exact ⟨List.mem_cons_of_mem b h1, h2⟩
        · intro ⟨h1, h2⟩
          rcases List.mem_cons.mp h1 with h | h
          · subst h
            exfalso
            have : (ownedBy t && !(visited.contains t)) = true := by
              rw [h2, (contains_eq_false_iff visited t).mpr hnt]
              rfl
            exact hg this
          · exact ⟨h, h2⟩

/-- When the neighbour scan completes without finding the target, the new
visited and queue lists extend the old ones by the same batch of fresh
owned neighbours, and every owned neighbour ends up visited. -/
theorem scanNeighbors_some_spec (ownedBy : Nat → Bool) (t : Nat) :
    ∀ (nbrs visited queue v2 q2 : List Nat),
      scanNeighbors ownedBy t nbrs visited queue = some (v2, q2) →
      ∃ added : List Nat,
        v2 = visited ++ added
        ∧ q2 = queue ++ added
        ∧ (∀ b ∈ added, b ∈ nbrs ∧ ownedBy b = true ∧ b ≠ t ∧ b ∉ visited)
        ∧ (∀ b ∈ nbrs, ownedBy b = true → b ∈ v2)
        ∧ (visited.Nodup → v2.Nodup) := by
  intro nbrs
  induction nbrs with
  | nil =>
      intro visited queue v2 q2 h
      simp only [scanNeighbors, Option.some_inj, Prod.mk.injEq] at h
      refine ⟨[], by simp [← h.1], by simp [← h.2], by simp, by simp, ?_⟩
      intro hnd
      rw [← h.1]
      exact hnd
  | cons b bs ih =>
      intro visited queue v2 q2 h
      by_cases hg : (ownedBy b && !(visited.contains b)) = true
      · have hg2 : ownedBy b = true ∧ visited.contains b = false := by
          simpa using hg
        have hbmem : b ∉ visited := (contains_eq_false_iff visited b).mp hg2.2
        have hbo : ownedBy b = true := hg2.1
        by_cases hbt : b = t
        · subst hbt
          simp only [scanNeighbors, hg, if_true, if_pos rfl] at h
          exact Option.noConfusion h
        · simp only [scanNeighbors, hg, if_true, if_neg hbt] at h
          obtain ⟨added, hv2, hq2, hadded, hcover, hnd⟩ :=
            ih (visited ++ [b]) (queue ++ [b]) v2 q2 h
          refine ⟨b :: added, ?_, ?_, ?_, ?_, ?_⟩
          · rw [hv2, List.append_assoc]
            rfl
          · rw [hq2, List.append_assoc]
            rfl
          · intro x hx
            rcases List.mem_cons.mp hx with hx | hx
            · subst hx
              exact ⟨List.mem_cons_self x bs, hbo, hbt, hbmem⟩
            · obtain ⟨h1, h2, h3, h4⟩ := hadded x hx
              refine ⟨List.mem_cons_of_mem b h1, h2, h3, ?_⟩
              intro hmem
              exact h4 (List.mem_append_left [b] hmem)
          · intro x hx hxo
            rcases List.mem_cons.mp hx with hx | hx
            · subst hx
              rw [hv2]
              exact List.mem_append_left _ (List.mem_append_right _
                (List.mem_singleton_self x))
            · exact hcover x hx hxo
          · intro hndv
            refine hnd ?_
            refine hndv.append (List.nodup_singleton b) ?_
            exact List.disjoint_singleton.mpr hbmem
      · simp only [scanNeighbors, hg, Bool.false_eq_true, if_false] at h
        obtain ⟨added, hv2, hq2, hadded, hcover, hnd⟩ :=
          ih visited queue v2 q2 h
        refine ⟨added, hv2, hq2, ?_, ?_, hnd⟩
        · intro x hx
          obtain ⟨h1, h2, h3, h4⟩ := hadded x hx
          exact ⟨List.mem_cons_of_mem b h1, h2, h3, h4⟩
        · intro x hx hxo
          rcases List.mem_cons.mp hx with hx | hx
          · subst hx
            have hbv : x ∈ visited := by
              by_contra hbv
              exact hg (by rw [hxo, (contains_eq_false_iff visited x).mpr hbv]; rfl)
            rw [hv2]
            exact List.mem_append_left _ hbv
          · exact hcover x hx hxo

/-- Correctness of the BFS loop of `is_province_connected_to_capital`:
under the loop invariant (visited is duplicate-free, contains the capital
and every queued element, consists of reached provinces inside the
universe, excludes the target, and is neighbour-closed off the queue),
with enough fuel the loop returns `true` exactly when the target is
reachable from the capital along owned edges. -/
theorem bfsLoop_correct (adjacency : Nat → List Nat) (ownedBy : Nat → Bool)
    (t cap : Nat) (univ : List Nat)
    (hadj : ∀ u v, v ∈ adjacency u → v ∈ univ) :
    ∀ (fuel : Nat) (queue visited : List Nat),
      visited.Nodup →
      (∀ q ∈ queue, q ∈ visited) →
      cap ∈ visited →
      (∀ v ∈ visited, ReachesOwned adjacency ownedBy cap v) →
      t ∉ visited →
      (∀ v ∈ visited, v ∉ queue →
        ∀ b ∈ adjacency v, ownedBy b = true → b ∈ visited) →
      (∀ v ∈ visited, v ∈ univ) →
      queue.length + univ.length + 1 ≤ fuel + visited.length →
      (bfsLoop adjacency ownedBy t fuel queue visited = true
        ↔ ReachesOwned adjacency ownedBy cap t) := by
  intro fuel
  induction fuel with
  | zero =>
      intro queue visited hnd _ _ _ _ _ hsub hlen
      exfalso
      have hle : visited.length ≤ univ.length :=
        (hnd.subperm (fun x hx => hsub x hx)).length_le
      omega
  | succ fuel ih =>
      intro queue visited hnd hqs hcap hsound hnt hclosed hsub hlen
      cases queue with
      | nil =>
          simp only [bfsLoop, Bool.false_eq_true, false_iff]
          intro hr
          exact hnt (reachesOwned_mem_closed hr visited hcap
            (fun v hv => hclosed v hv (List.not_mem_nil v)))
      | cons current rest =>
          have hcur : current ∈ visited := hqs current (List.mem_cons_self _ _)
          simp only [bfsLoop]
          cases hscan : scanNeighbors ownedBy t (adjacency current) visited rest with
          | none =>
              simp only [true_iff]
              obtain ⟨h1, h2⟩ :=
                (scanNeighbors_none_iff ownedBy t (adjacency current)
                  visited rest hnt).mp hscan
              exact ReachesOwned.tail (hsound current hcur) h1 h2
          | some pr =>
              obtain ⟨v2, q2⟩ := pr
              obtain ⟨added, hv2, hq2, hadded, hcover, hndp⟩ :=
                scanNeighbors_some_spec ownedBy t (adjacency current)
                  visited rest v2 q2 hscan
              have hlenv : v2.length = visited.length + added.length := by
                rw [hv2, List.length_append]
              have hlenq : q2.length = rest.length + added.length := by
                rw [hq2, List.length_append]
              simp only [List.length_cons] at hlen
              refine ih q2 v2 (hndp hnd) ?_ ?_ ?_ ?_ ?_ ?_ ?_
              · intro q hq
                rw [hq2] at hq
                rcases List.mem_append.mp hq with h | h
                · rw [hv2]
                  exact List.mem_append_left _
                    (hqs q (List.mem_cons_of_mem current h))
                · rw [hv2]
                  exact List.mem_append_right _ h
              · rw [hv2]
                exact List.mem_append_left _ hcap
              · intro v hv
                rw [hv2] at hv
                rcases List.mem_append.mp hv with h | h
                · exact hsound v h
                · obtain ⟨hb1, hb2, _, _⟩ := hadded v h
                  exact ReachesOwned.tail (hsound current hcur) hb1 hb2
              · intro hmem
                rw [hv2] at hmem
                rcases List.mem_append.mp hmem with h | h
                · exact hnt h
                · exact (hadded t h).2.2.1 rfl
              · intro v hv hvq b hb hbo
                rw [hv2] at hv
                rcases List.mem_append.mp hv with h | h
                · by_cases hvc : v = current
                  · subst hvc
                    exact hcover b hb hbo
                  · have hvrest : v ∉ rest := by
                      intro hr
                      exact hvq (by rw [hq2]; exact List.mem_append_left _ hr)
                    have hvold : v ∉ current :: rest := by
                      intro hr
                      rcases List.mem_cons.mp hr with hr | hr
                      · exact hvc hr
                      · exact hvrest hr
                    have := hclosed v h hvold b hb hbo
                    rw [hv2]
                    exact List.mem_append_left _ this
                · exfalso
                  exact hvq (by rw [hq2]; exact List.mem_append_right _ h)
              · intro v hv
                rw [hv2] at hv
                rcases List.mem_append.mp hv with h | h
                · exact hsub v h
                · exact hadj current v (hadded v h).1
              · omega

/-- C4 counterexample: `is_province_connected_to_capital` has no island
clause.  In `wIsland`, country 0 has a capital and province 1 is an owned
island, yet the query returns `False` (the island exemption lives at every
call site, e.g. game.py:414, 496, 1682, not inside the function). -/
theorem island_query_false :
    wIsland.capitalProvince 0 = some 0
    ∧ wIsland.isIsland 1 = true
    ∧ 1 ∈ wIsland.ownedProvinces 0
    ∧ isProvinceConnectedToCapital wIsland 0 1 = false := by
  refine ⟨by decide, by decide, by decide, by decide⟩

/-- C4 (amended): for a country whose capital is set, owned and inside the
province universe (with adjacency staying inside the universe), the query
returns `true` exactly when the province is in `owned_provinces` and
reachable from the capital along adjacency edges into provinces owned by
the country (so it returns `true` for the capital itself); there is no
unconditional island clause — callers apply the island exemption. -/
theorem isProvinceConnectedToCapital_iff (w : World) (c p cap : Nat)
    (hcap : w.capitalProvince c = some cap)
    (hcapmem : cap ∈ w.ownedProvinces c)
    (hcapuniv : cap ∈ w.provinceUniverse)
    (hadj : ∀ u v, v ∈ w.borderProvinces u → v ∈ w.provinceUniverse) :
    isProvinceConnectedToCapital w c p = true
      ↔ (p ∈ w.ownedProvinces c
          ∧ ReachesOwned w.borderProvinces (fun q => w.owner q == some c) cap p) := by
  unfold isProvinceConnectedToCapital
  rw [hcap]
  by_cases hmem : p ∈ w.ownedProvinces c
  · have hcont : ((w.ownedProvinces c).contains p) = true := by
      rw [List.contains]
      exact List.elem_iff.mpr hmem
    rw [hcont]
    simp only [Bool.not_true, Bool.false_eq_true, if_false]
    by_cases hpc : p = cap
    · subst hpc
      rw [if_pos rfl]
      simp only [true_iff]
      exact ⟨hmem, ReachesOwned.refl p⟩
    · rw [if_neg hpc]
      have hiff := bfsLoop_correct w.borderProvinces
        (fun q => w.owner q == some c) p cap w.provinceUniverse hadj
        (w.provinceUniverse.length + 1) [cap] [cap]
        (List.nodup_singleton cap) (fun q hq => hq)
        (List.mem_singleton_self cap)
        (by
          intro v hv
          rw [List.mem_singleton.mp hv]
          exact ReachesOwned.refl cap)
        (by
          intro hmem2
          exact hpc (List.mem_singleton.mp hmem2))
        (by
          intro v hv hnv
          exact absurd hv hnv)
        (by
          intro v hv
          rw [List.mem_singleton.mp hv]
          exact hcapuniv)
        (by simp only [List.length_singleton]; omega)
      rw [hiff]
      constructor
      · intro hr
        exact ⟨hmem, hr⟩
      · intro hr
        exact hr.2
  · have hcont : ((w.ownedProvinces c).contains p) = false :=
      (contains_eq_false_iff _ _).mpr hmem
    rw [hcont]
    simp only [Bool.not_false, if_true, Bool.false_eq_true, false_iff]
    intro hr
    exact hmem hr.1

/-- Witness for `isProvinceConnectedToCapital_iff` on the two-province path
world. -/
theorem isProvinceConnectedToCapital_iff_witness :
    wPath.capitalProvince 0 = some 0
    ∧ 0 ∈ wPath.ownedProvinces 0
    ∧ 0 ∈ wPath.provinceUniverse
    ∧ (∀ u v, v ∈ wPath.borderProvinces u → v ∈ wPath.provinceUniverse)
    ∧ (isProvinceConnectedToCapital wPath 0 1 = true
        ↔ (1 ∈ wPath.ownedProvinces 0
            ∧ ReachesOwned wPath.borderProvinces
                (fun q => wPath.owner q == some 0) 0 1)) := by
  have hadj : ∀ u v, v ∈ wPath.borderProvinces u → v ∈ wPath.provinceUniverse := by
    intro u v hv
    simp only [wPath] at hv
    split_ifs at hv with h0 h1
    · rw [List.mem_singleton.mp hv]
      decide
    · rw [List.mem_singleton.mp hv]
      decide
    · cases hv
  exact ⟨by decide, by decide, by decide, hadj,
    isProvinceConnectedToCapital_iff wPath 0 1 0 (by decide) (by decide)
      (by decide) hadj⟩


/-! ### Battle damage (C5) -/

/-- C5 counterexample: with attacker effective strength 9 and defender
effective strength 1, the defender's share of combined strength is
1/10 < 0.4 — the claim then demands the intrinsic defense be left
unchanged — yet the code's tick drops it from 10 to 0 (the code gates the
decay on the ATTACKER's share ≥ 0.4). -/
theorem provinceDefense_decay_counterexample :
    (1 : ℚ) / ((9 : ℚ) + 1) < 2 / 5
    ∧ (applyBattleDamage ⟨[], [], 10, 2⟩ 9 1 1).provinceDefenseStrength = 0
    ∧ (BattleState.mk [] [] 10 2).provinceDefenseStrength = 10
    ∧ ((0 : ℚ) ≠ 10) := by
  refine ⟨by norm_num, ?_, rfl, by norm_num⟩
  have h1 : ¬((9 : ℚ) + 1 ≤ 0) := by norm_num
  have h2 : (1 : ℚ) / 2 < 9 / ((9 : ℚ) + 1) := by norm_num
  have h3 : (2 : ℚ) / 5 ≤ 9 / ((9 : ℚ) + 1) := by norm_num
  simp only [applyBattleDamage, if_neg h1, if_pos h2, if_pos h3]
  show max 0 ((10 : ℚ) - 10 * ((2 : ℚ) * (3 / 2) * 1)) = 0
  rw [max_eq_left (by norm_num)]

/-- C5 (amended): in each damage tick the province intrinsic defense
decreases by its own value times the defender damage rate, clamped at 0,
exactly when the ATTACKER's effective share of combined strength is at
least 0.4 (equivalently, the defender's share is at most 0.6); when the
attacker's share is below 0.4 the intrinsic defense is unchanged that
tick. -/
theorem provinceDefense_decay_iff (b : BattleState)
    (attackStrength defenseStrength damageMultiplier : ℚ)
    (hpos : 0 < attackStrength + defenseStrength) :
    (2 / 5 ≤ attackStrength / (attackStrength + defenseStrength) →
      (applyBattleDamage b attackStrength defenseStrength
          damageMultiplier).provinceDefenseStrength
        = max 0 (b.provinceDefenseStrength - b.provinceDefenseStrength *
            (if 1 / 2 < attackStrength / (attackStrength + defenseStrength) then
              b.damagePerTick * (3 / 2) * damageMultiplier
            else b.damagePerTick * (1 / 5) * damageMultiplier)))
    ∧ (attackStrength / (attackStrength + defenseStrength) < 2 / 5 →
      (applyBattleDamage b attackStrength defenseStrength
          damageMultiplier).provinceDefenseStrength
        = b.provinceDefenseStrength) := by
  have hne : ¬(attackStrength + defenseStrength ≤ 0) := not_le.mpr hpos
  constructor
  · intro hge
    simp only [applyBattleDamage, if_neg hne, if_pos hge]
    by_cases half : 1 / 2 < attackStrength / (attackStrength + defenseStrength)
    · simp only [if_pos half]
    · simp only [if_neg half]
  · intro hlt
    simp only [applyBattleDamage, if_neg hne, if_neg (not_le.mpr hlt)]

/-- Witness for `provinceDefense_decay_iff` at concrete strengths 9 vs 1. -/
theorem provinceDefense_decay_iff_witness :
    (0 : ℚ) < 9 + 1
    ∧ ((2 / 5 ≤ (9 : ℚ) / (9 + 1) →
        (applyBattleDamage ⟨[], [], 10, 2⟩ 9 1 1).provinceDefenseStrength
          = max 0 ((BattleState.mk [] [] 10 2).provinceDefenseStrength
              - (BattleState.mk [] [] 10 2).provinceDefenseStrength *
              (if 1 / 2 < (9 : ℚ) / (9 + 1) then
                (BattleState.mk [] [] 10 2).damagePerTick * (3 / 2) * 1
              else (BattleState.mk [] [] 10 2).damagePerTick * (1 / 5) * 1)))
      ∧ ((9 : ℚ) / (9 + 1) < 2 / 5 →
        (applyBattleDamage ⟨[], [], 10, 2⟩ 9 1 1).provinceDefenseStrength
          = (BattleState.mk [] [] 10 2).provinceDefenseStrength)) :=
  ⟨by norm_num, provinceDefense_decay_iff ⟨[], [], 10, 2⟩ 9 1 1 (by norm_num)⟩

/-! ### Isolated-army decay (C6) -/

theorem pyInt_eval (q : ℚ) (n : ℤ) (h0 : 0 ≤ q) (hfl : ⌊q⌋ = n) : pyInt q = n := by
  unfold pyInt
  rw [if_pos h0, hfl]

theorem worldExt (w1 w2 : World) (h1 : w1.owner = w2.owner)
    (h2 : w1.ownedProvinces = w2.ownedProvinces)
    (h3 : w1.population = w2.population) (h4 : w1.gdp = w2.gdp)
    (h5 : w1.isIsland = w2.isIsland) (h6 : w1.isCoastal = w2.isCoastal)
    (h7 : w1.borderProvinces = w2.borderProvinces)
    (h8 : w1.capitalProvince = w2.capitalProvince) (h9 : w1.armies = w2.armies)
    (h10 : w1.provinceUniverse = w2.provinceUniverse) : w1 = w2 := by
  cases w1
  cases w2
  simp only [World.mk.injEq]
  exact ⟨h1, h2, h3, h4, h5, h6, h7, h8, h9, h10⟩

theorem runTicksIsolationDecay_succ (c n : Nat) (w : World) :
    runTicksIsolationDecay c (n + 1) w
      = runTicksIsolationDecay c n (isolationDecayTick w c) := rfl

/-- One decay tick on the concrete isolated-army world: the single army at
the disconnected province 2 is decayed to `int(s * 0.95)` and survives
when the result exceeds 100. -/
theorem isolationDecayTick_eval (s s' : ℤ)
    (hs : pyInt ((s : ℚ) * (19 / 20)) = s') (h100 : ¬(s' ≤ 100)) :
    isolationDecayTick (wIsolatedA s) 0 = wIsolatedA s' := by
  have hiso : getIsolatedProvinces (wIsolatedA s) 0 = [2] := rfl
  have harm0 : (wIsolatedA s).armies 0 = [mkArmy 0 2 s] := rfl
  have hmem : (mkArmy 0 2 s).currentProvince ∈ ([2] : List Nat) :=
    List.mem_singleton_self 2
  have hone : (if (mkArmy 0 2 s).currentProvince ∈ ([2] : List Nat) then
      { mkArmy 0 2 s with
        strength := pyInt (((mkArmy 0 2 s).strength : ℚ) * (19 / 20)) }
      else mkArmy 0 2 s) = mkArmy 0 2 s' := by
    rw [if_pos hmem]
    show { mkArmy 0 2 s with strength := pyInt ((s : ℚ) * (19 / 20)) }
      = mkArmy 0 2 s'
    rw [hs]
    rfl
  have hkeep : (!(([2] : List Nat).contains (mkArmy 0 2 s').currentProvince
      && decide ((mkArmy 0 2 s').strength ≤ 100))) = true := by
    show (!(([2] : List Nat).contains 2 && decide (s' ≤ 100))) = true
    rw [decide_eq_false h100]
    rfl
  refine worldExt _ _ rfl rfl rfl rfl rfl rfl rfl rfl ?_ rfl
  funext c2
  simp only [isolationDecayTick, hiso, harm0]
  by_cases hc : c2 = 0
  · rw [if_pos hc, List.map_cons, List.map_nil, hone, List.filter_cons, hkeep]
    rw [if_pos rfl]
    show [mkArmy 0 2 s'] = (wIsolatedA s').armies c2
    rw [hc]
    rfl
  · rw [if_neg hc]
    show (wIsolatedA s).armies c2 = (wIsolatedA s').armies c2
    simp only [wIsolatedA]
    rw [if_neg hc, if_neg hc]

/-- C6 (code bug): the decay block executes once per tick, not once per
logical second.  Over one logical second
(`GAME_TICKS_PER_LOGICAL_SECOND = 30` ticks) the isolated army of
strength 1000 is decayed thirty times, ending at 208 — a single
application of `int(strength * 0.95)`, which the block's own comment
("5% per second") and the spec describe, would leave 950. -/
theorem isolationDecay_runs_every_tick :
    runTicksIsolationDecay 0 GAME_TICKS_PER_LOGICAL_SECOND (wIsolatedA 1000)
      = wIsolatedA 208
    ∧ pyInt ((1000 : ℚ) * (19 / 20)) = 950
    ∧ ((208 : ℤ) ≠ 950) := by
  refine ⟨?_, pyInt_eval _ _ (by norm_num) (by norm_num), by decide⟩
  show runTicksIsolationDecay 0 30 (wIsolatedA 1000) = wIsolatedA 208
  rw [show (30 : ℕ) = 29 + 1 from rfl, runTicksIsolationDecay_succ,
    isolationDecayTick_eval 1000 950
      (pyInt_eval _ _ (by norm_num) (by norm_num)) (by norm_num)]
  rw [show (29 : ℕ) = 28 + 1 from rfl, runTicksIsolationDecay_succ,
    isolationDecayTick_eval 950 902
      (pyInt_eval _ _ (by norm_num) (by norm_num)) (by norm_num)]
  rw [show (28 : ℕ) = 27 + 1 from rfl, runTicksIsolationDecay_succ,
    isolationDecayTick_eval 902 856
      (pyInt_eval _ _ (by norm_num) (by norm_num)) (by norm_num)]
  rw [show (27 : ℕ) = 26 + 1 from rfl, runTicksIsolationDecay_succ,
    isolationDecayTick_eval 856 813
      (pyInt_eval _ _ (by norm_num) (by norm_num)) (by norm_num)]
  rw [show (26 : ℕ) = 25 + 1 from rfl, runTicksIsolationDecay_succ,
    isolationDecayTick_eval 813 772
      (pyInt_eval _ _ (by norm_num) (by norm_num)) (by norm_num)]
  rw [show (25 : ℕ) = 24 + 1 from rfl, runTicksIsolationDecay_succ,
    isolationDecayTick_eval 772 733
      (pyInt_eval _ _ (by norm_num) (by norm_num)) (by norm_num)]
  rw [show (24 : ℕ) = 23 + 1 from rfl, runTicksIsolationDecay_succ,
    isolationDecayTick_eval 733 696
      (pyInt_eval _ _ (by norm_num) (by norm_num)) (by norm_num)]
  rw [show (23 : ℕ) = 22 + 1 from rfl, runTicksIsolationDecay_succ,
    isolationDecayTick_eval 696 661
      (pyInt_eval _ _ (by norm_num) (by norm_num)) (by norm_num)]
  rw [show (22 : ℕ) = 21 + 1 from rfl, runTicksIsolationDecay_succ,
    isolationDecayTick_eval 661 627
      (pyInt_eval _ _ (by norm_num) (by norm_num)) (by norm_num)]
  rw [show (21 : ℕ) = 20 + 1 from rfl, runTicksIsolationDecay_succ,
    isolationDecayTick_eval 627 595
      (pyInt_eval _ _ (by norm_num) (by norm_num)) (by norm_num)]
  rw [show (20 : ℕ) = 19 + 1 from rfl, runTicksIsolationDecay_succ,
    isolationDecayTick_eval 595 565
      (pyInt_eval _ _ (by norm_num) (by norm_num)) (by norm_num)]
  rw [show (19 : ℕ) = 18 + 1 from rfl, runTicksIsolationDecay_succ,
    isolationDecayTick_eval 565 536
      (pyInt_eval _ _ (by norm_num) (by norm_num)) (by norm_num)]
  rw [show (18 : ℕ) = 17 + 1 from rfl, runTicksIsolationDecay_succ,
    isolationDecayTick_eval 536 509
      (pyInt_eval _ _ (by norm_num) (by norm_num)) (by norm_num)]
  rw [show (17 : ℕ) = 16 + 1 from rfl, runTicksIsolationDecay_succ,
    isolationDecayTick_eval 509 483
      (pyInt_eval _ _ (by norm_num) (by norm_num)) (by norm_num)]
  rw [show (16 : ℕ) = 15 + 1 from rfl, runTicksIsolationDecay_succ,
    isolationDecayTick_eval 483 458
      (pyInt_eval _ _ (by norm_num) (by norm_num)) (by norm_num)]
  rw [show (15 : ℕ) = 14 + 1 from rfl, runTicksIsolationDecay_succ,
    isolationDecayTick_eval 458 435
      (pyInt_eval _ _ (by norm_num) (by norm_num)) (by norm_num)]
  rw [show (14 : ℕ) = 13 + 1 from rfl, runTicksIsolationDecay_succ,
    isolationDecayTick_eval 435 413
      (pyInt_eval _ _ (by norm_num) (by norm_num)) (by norm_num)]
  rw [show (13 : ℕ) = 12 + 1 from rfl, runTicksIsolationDecay_succ,
    isolationDecayTick_eval 413 392
      (pyInt_eval _ _ (by norm_num) (by norm_num)) (by norm_num)]
  rw [show (12 : ℕ) = 11 + 1 from rfl, runTicksIsolationDecay_succ,
    isolationDecayTick_eval 392 372
      (pyInt_eval _ _ (by norm_num) (by norm_num)) (by norm_num)]
  rw [show (11 : ℕ) = 10 + 1 from rfl, runTicksIsolationDecay_succ,
    isolationDecayTick_eval 372 353
      (pyInt_eval _ _ (by norm_num) (by norm_num)) (by norm_num)]
  rw [show (10 : ℕ) = 9 + 1 from rfl, runTicksIsolationDecay_succ,
    isolationDecayTick_eval 353 335
      (pyInt_eval _ _ (by norm_num) (by norm_num)) (by norm_num)]
  rw [show (9 : ℕ) = 8 + 1 from rfl, runTicksIsolationDecay_succ,
    isolationDecayTick_eval 335 318
      (pyInt_eval _ _ (by norm_num) (by norm_num)) (by norm_num)]
  rw [show (8 : ℕ) = 7 + 1 from rfl, runTicksIsolationDecay_succ,
    isolationDecayTick_eval 318 302
      (pyInt_eval _ _ (by norm_num) (by norm_num)) (by norm_num)]
  rw [show (7 : ℕ) = 6 + 1 from rfl, runTicksIsolationDecay_succ,
    isolationDecayTick_eval 302 286
      (pyInt_eval _ _ (by norm_num) (by norm_num)) (by norm_num)]
  rw [show (6 : ℕ) = 5 + 1 from rfl, runTicksIsolationDecay_succ,
    isolationDecayTick_eval 286 271
      (pyInt_eval _ _ (by norm_num) (by norm_num)) (by norm_num)]
  rw [show (5 : ℕ) = 4 + 1 from rfl, runTicksIsolationDecay_succ,
    isolationDecayTick_eval 271 257
      (pyInt_eval _ _ (by norm_num) (by norm_num)) (by norm_num)]
  rw [show (4 : ℕ) = 3 + 1 from rfl, runTicksIsolationDecay_succ,
    isolationDecayTick_eval 257 244
      (pyInt_eval _ _ (by norm_num) (by norm_num)) (by norm_num)]
  rw [show (3 : ℕ) = 2 + 1 from rfl, runTicksIsolationDecay_succ,
    isolationDecayTick_eval 244 231
      (pyInt_eval _ _ (by norm_num) (by norm_num)) (by norm_num)]
  rw [show (2 : ℕ) = 1 + 1 from rfl, runTicksIsolationDecay_succ,
    isolationDecayTick_eval 231 219
      (pyInt_eval _ _ (by norm_num) (by norm_num)) (by norm_num)]
  rw [show (1 : ℕ) = 0 + 1 from rfl, runTicksIsolationDecay_succ,
    isolationDecayTick_eval 219 208
      (pyInt_eval _ _ (by norm_num) (by norm_num)) (by norm_num)]
  rfl

/-! ### Attacker victory (C7) -/

theorem pyMaxByStrength_clear (l : List Army) :
    ∀ cur : Army,
      pyMaxByStrength { cur with inBattle := false }
          (l.map fun a => { a with inBattle := false })
        = { pyMaxByStrength cur l with inBattle := false } := by
  induction l with
  | nil => intro cur; rfl
  | cons x xs ih =>
      intro cur
      simp only [List.map_cons, pyMaxByStrength]
      by_cases h : cur.strength < x.strength
      · rw [if_pos h, if_pos h]
        exact ih x
      · rw [if_neg h, if_neg h]
        exact ih cur

/-- C7: when a battle ends in attacker victory with surviving attackers,
the province is transferred to the owner of the strongest surviving
attacker (first maximal by strength): its owner field and the winner's
`owned_provinces` both record the winner, its population becomes
`int(0.98 * pre-conquest population)` and its GDP
`int(0.70 * pre-conquest GDP)`, the original owner (when distinct from
the winner, with a duplicate-free owned list) no longer owns it, and
every attacking army whose mission is not `"defense"` ends with target
cleared and mission `"idle"`. -/
theorem attackerVictory_spec (pick : List Nat → Option Nat) (w : World)
    (province : Nat) (originalOwner : Option Nat) (a0 : Army)
    (rest defendingArmies : List Army) :
    ((endBattleAttackerVictory pick w province originalOwner (a0 :: rest)
        defendingArmies).1.owner province
      = some (pyMaxByStrength a0 rest).owner)
    ∧ province ∈ (endBattleAttackerVictory pick w province originalOwner
          (a0 :: rest) defendingArmies).1.ownedProvinces
          (pyMaxByStrength a0 rest).owner
    ∧ (endBattleAttackerVictory pick w province originalOwner (a0 :: rest)
          defendingArmies).1.population province
        = ((pyInt (w.population province * (49 / 50)) : ℤ) : ℚ)
    ∧ (endBattleAttackerVictory pick w province originalOwner (a0 :: rest)
          defendingArmies).1.gdp province
        = ((pyInt (w.gdp province * (7 / 10)) : ℤ) : ℚ)
    ∧ (∀ o, originalOwner = some o → o ≠ (pyMaxByStrength a0 rest).owner →
        (w.ownedProvinces o).Nodup →
        province ∉ (endBattleAttackerVictory pick w province originalOwner
          (a0 :: rest) defendingArmies).1.ownedProvinces o)
    ∧ (∀ a2 ∈ (endBattleAttackerVictory pick w province originalOwner
          (a0 :: rest) defendingArmies).2.1,
        a2.missionType ≠ "defense" →
          a2.targetProvince = none ∧ a2.missionType = "idle") := by
  have hwin : (pyMaxByStrength ({ a0 with inBattle := false })
      (rest.map fun a => { a with inBattle := false })).owner
      = (pyMaxByStrength a0 rest).owner := by
    rw [pyMaxByStrength_clear]
  have hw2 : (endBattleAttackerVictory pick w province originalOwner (a0 :: rest)
      defendingArmies).1
      = addProvince
          (match originalOwner with
            | some o => removeProvince pick w o province
            | none => w)
          (pyMaxByStrength ({ a0 with inBattle := false })
            (rest.map fun a => { a with inBattle := false })).owner
          province
          (some ((pyInt (w.population province * (49 / 50)) : ℤ) : ℚ))
          (some ((pyInt (w.gdp province * (7 / 10)) : ℤ) : ℚ)) := rfl
  have hatt : (endBattleAttackerVictory pick w province originalOwner (a0 :: rest)
      defendingArmies).2.1
      = ((a0 :: rest).map fun a => { a with inBattle := false }).map
          (fun a => if a.missionType ≠ "defense" then
            { a with targetProvince := none, missionType := "idle" }
          else a) := rfl
  refine ⟨?_, ?_, ?_, ?_, ?_, ?_⟩
  · rw [hw2, hwin]
    simp [addProvince]
  · rw [hw2, hwin]
    simp [addProvince]
  · rw [hw2]
    simp [addProvince]
  · rw [hw2]
    simp [addProvince]
  · intro o ho hne hnd
    rw [hw2, hwin]
    subst ho
    simp only [addProvince]
    rw [if_neg hne]
    show province ∉ (removeProvince pick w o province).ownedProvinces o
    have hrm : (removeProvince pick w o province).ownedProvinces o
        = (w.ownedProvinces o).erase province := by
      rw [removeProvince_owned]
      simp
    rw [hrm]
    exact hnd.not_mem_erase
  · intro a2 ha2 hmis
    rw [hatt] at ha2
    obtain ⟨b, _, hb2⟩ := List.mem_map.mp ha2
    by_cases hd : b.missionType ≠ "defense"
    · rw [if_pos hd] at hb2
      rw [← hb2]
      exact ⟨rfl, rfl⟩
    · rw [if_neg hd] at hb2
      push_neg at hd
      exfalso
      apply hmis
      rw [← hb2]
      exact hd

/-- Witness for `attackerVictory_spec` at a concrete battle: province 3
originally owned by country 1 is conquered by country 0's army. -/
theorem attackerVictory_spec_witness :
    ((endBattleAttackerVictory (fun _ => none) wLedger 3 (some 1)
        [mkArmy 0 3 500] []).1.owner 3
      = some (pyMaxByStrength (mkArmy 0 3 500) []).owner)
    ∧ (∀ a2 ∈ (endBattleAttackerVictory (fun _ => none) wLedger 3 (some 1)
          [mkArmy 0 3 500] []).2.1,
        a2.missionType ≠ "defense" →
          a2.targetProvince = none ∧ a2.missionType = "idle") := by
  obtain ⟨h1, _, _, _, _, h6⟩ := attackerVictory_spec (fun _ => none) wLedger 3
    (some 1) (mkArmy 0 3 500) [] []
  exact ⟨h1, h6⟩

/-! ### Battle-start idempotence (C9) -/

/-- C9: invoking `start_battle` for a province with an active battle and a
single attacking army that the battle's attacker list counts at most once
leaves that army counted at most once — re-adding a present army never
duplicates it. -/
theorem startBattle_no_duplicate (battles : List BattleRec) (province a : Nat)
    (defending : List Nat) (pds : ℚ) (b : BattleRec)
    (hb : getBattleAtProvince battles province = some b)
    (hcount : b.attackingArmies.count a ≤ 1) :
    ∀ b2, getBattleAtProvince
        (startBattle battles province [a] defending pds) province = some b2 →
      b2.attackingArmies.count a ≤ 1 := by
  induction battles with
  | nil => simp [getBattleAtProvince] at hb
  | cons b0 bs ih =>
      by_cases hp : b0.province = province
      · have hb0 : b = b0 := by
          simp only [getBattleAtProvince, if_pos hp] at hb
          exact (Option.some_inj.mp hb).symm
        intro b2 h2
        have hs : startBattle (b0 :: bs) province [a] defending pds
            = { b0 with
                attackingArmies := mergeAttackers b0.attackingArmies [a] } :: bs := by
          simp only [startBattle, if_pos hp]
        rw [hs] at h2
        have hp2 : ({ b0 with
            attackingArmies := mergeAttackers b0.attackingArmies [a] } :
            BattleRec).province = province := hp
        simp only [getBattleAtProvince, if_pos hp2] at h2
        have hb2 : b2 = { b0 with
            attackingArmies := mergeAttackers b0.attackingArmies [a] } :=
          (Option.some_inj.mp h2).symm
        rw [hb2]
        show (mergeAttackers b0.attackingArmies [a]).count a ≤ 1
        have hm : mergeAttackers b0.attackingArmies [a]
            = if a ∈ b0.attackingArmies then b0.attackingArmies
              else b0.attackingArmies ++ [a] := rfl
        rw [hm]
        by_cases hmem : a ∈ b0.attackingArmies
        · rw [if_pos hmem]
          rw [hb0] at hcount
          exact hcount
        · rw [if_neg hmem]
          rw [List.count_append]
          rw [List.count_eq_zero.mpr hmem]
          simp
      · intro b2 h2
        have hs : startBattle (b0 :: bs) province [a] defending pds
            = b0 :: startBattle bs province [a] defending pds := by
          simp only [startBattle, if_neg hp]
        rw [hs] at h2
        simp only [getBattleAtProvince, if_neg hp] at h2
        have hb3 : getBattleAtProvince bs province = some b := by
          simpa only [getBattleAtProvince, if_neg hp] using hb
        exact ih hb3 b2 h2

/-- Witness for `startBattle_no_duplicate`: a second `start_battle` call at
province 5 with army 7 already in the active battle's attacker list. -/
theorem startBattle_no_duplicate_witness :
    getBattleAtProvince [⟨5, [7], [], 0⟩] 5 = some ⟨5, [7], [], 0⟩
    ∧ (BattleRec.mk 5 [7] [] 0).attackingArmies.count 7 ≤ 1
    ∧ ∀ b2, getBattleAtProvince
        (startBattle [⟨5, [7], [], 0⟩] 5 [7] [] 0) 5 = some b2 →
      b2.attackingArmies.count 7 ≤ 1 :=
  ⟨rfl, by decide,
    startBattle_no_duplicate [⟨5, [7], [], 0⟩] 5 7 [] 0 ⟨5, [7], [], 0⟩
      rfl (by decide)⟩

end Game
